import Mathlib

/-!
Shallow embedding of the nsc-controller namespace reconciler
(`internal/controller/namespace_controller.go`) together with the
`NamespaceClass` API types (`api/v1`).

The cluster API server is modelled as a deterministic in-memory store
holding the namespaces, the cluster-scoped `NamespaceClass` objects and
the managed (namespaced) resources.  Client calls (`Get`, `Create`,
`Update`, `Delete`, `Status().Update`, `Update` on a namespace) act on
this store; the distinguished `NotFound` outcome is the only failure a
store call can produce, matching the branches the controller actually
takes.  Every controller function additionally returns the list of API
calls it issued, in order, so that claims about which mutations a pass
performs can be stated as trace properties.

A `runtime.RawExtension` manifest is modelled as either a decoded
`unstructured.Unstructured` object (apiVersion, kind, name, namespace,
plus one field of otherwise-uninterpreted content) or an undecodable
blob on which `UnmarshalJSON` fails.  Equality of
`GroupVersionKind()` values is modelled as equality of the
(apiVersion, kind) string pairs, which is what the parse of well-formed
`apiVersion` strings yields.
-/

deriving instance DecidableEq for Except

namespace Nsc

/-- `ResourceStatus` from `api/v1/namespaceclass_types.go`:
one ledger entry `{kind, name, apiVersion}`. -/
structure ResourceStatus where
  kind : String
  name : String
  apiVersion : String
deriving DecidableEq

/-- A decoded `unstructured.Unstructured` object: the address fields the
controller reads (`GetAPIVersion`, `GetKind`, `GetName`, namespace) plus
the remaining manifest content, carried as an uninterpreted payload. -/
structure UObj where
  apiVersion : String
  kind : String
  name : String
  ns : String
  payload : String
deriving DecidableEq

/-- A `runtime.RawExtension` manifest: either `UnmarshalJSON` succeeds
and yields an object, or it fails. -/
inductive RawManifest where
  | ok (o : UObj)
  | bad
deriving DecidableEq

/-- `NamespaceClassSpec`: the declared resource manifests. -/
structure NamespaceClassSpec where
  resources : List RawManifest
deriving DecidableEq

/-- `NamespaceClassStatus`: the ledger of materialized resources. -/
structure NamespaceClassStatus where
  resources : List ResourceStatus
deriving DecidableEq

/-- `NamespaceClass` (cluster-scoped, keyed by its metadata name). -/
structure NamespaceClass where
  name : String
  spec : NamespaceClassSpec
  status : NamespaceClassStatus
deriving DecidableEq

/-- A `corev1.Namespace`: name, labels and annotations.  Go's nil map and
empty map read alike, so the `Annotations == nil` initialisation in the
source is a no-op here. -/
structure NsObj where
  name : String
  labels : List (String × String)
  annotations : List (String × String)
deriving DecidableEq

/-- The address of a managed resource:
`{apiVersion, kind, name, namespace}`. -/
structure ObjKey where
  apiVersion : String
  kind : String
  name : String
  ns : String
deriving DecidableEq

/-- The cluster state the controller reads and writes. -/
structure Store where
  namespaces : List NsObj
  classes : List NamespaceClass
  objects : List (ObjKey × String)
deriving DecidableEq

/-- One API call issued by the controller, recorded in order. -/
inductive Op where
  | getOp (k : ObjKey)
  | createOp (k : ObjKey) (payload : String)
  | updateOp (k : ObjKey) (payload : String)
  | deleteOp (k : ObjKey)
  | statusUpdate (className : String) (resources : List ResourceStatus)
  | nsUpdate (n : NsObj)
deriving DecidableEq

/-- Errors a pass can end with: a `NotFound` from a store call taken on a
fatal branch, a failed `UnmarshalJSON`, or a Go slice-bounds panic (the
only situation in `handleResourcesDeletion` where the source would
crash, see `sweepInnerLoop`). -/
inductive Err where
  | notFound
  | decodeError
  | sliceBounds
deriving DecidableEq

/-- The label carrying the desired class name. -/
def classLabelKey : String := "namespaceclass.akuity.io/name"

/-- The annotation recording the last applied class name. -/
def lastNameKey : String := "namespaceclass.akuity.io/last-name"

/-- Result of a controller function: the trace of API calls it issued,
the store as left behind (mutations already applied survive an error,
as on a real API server), and either the surviving in-memory values or
the error returned to the caller. -/
abbrev Res (A : Type) := List Op × Store × Except Err A

/-! ## Store primitives (the object-store interface of §6) -/

/-- Map read (`m[k]`), first binding wins. -/
def getA : List (String × String) → String → Option String
  | [], _ => none
  | (k', v) :: rest, k => if k' = k then some v else getA rest k

/-- Map write (`m[k] = v`): replace the binding if present, add it
otherwise.  Go maps have unique keys, so replacing the first binding is
exact. -/
def setA : List (String × String) → String → String → List (String × String)
  | [], k, v => [(k, v)]
  | (k', w) :: rest, k, v =>
    if k' = k then (k, v) :: rest else (k', w) :: setA rest k v

/-- `Get` on a managed resource, by its full address. -/
def lookupObj : List (ObjKey × String) → ObjKey → Option String
  | [], _ => none
  | (k', v) :: rest, k => if k' = k then some v else lookupObj rest k

/-- `Update` on a managed resource: overwrite the stored content. -/
def updateA : List (ObjKey × String) → ObjKey → String → List (ObjKey × String)
  | [], _, _ => []
  | (k', w) :: rest, k, v =>
    if k' = k then (k, v) :: rest else (k', w) :: updateA rest k v

/-- `Delete` on a managed resource: remove every binding of the key
(a real store holds at most one object per address). -/
def removeA : List (ObjKey × String) → ObjKey → List (ObjKey × String)
  | [], _ => []
  | (k', w) :: rest, k =>
    if k' = k then removeA rest k else (k', w) :: removeA rest k

/-- `Get` on a `NamespaceClass`, by name. -/
def findClass : List NamespaceClass → String → Option NamespaceClass
  | [], _ => none
  | c :: rest, n => if c.name = n then some c else findClass rest n

/-- `Status().Update` on a `NamespaceClass`: overwrite the stored
status sub-object, leaving the spec untouched. -/
def putClasses : List NamespaceClass → String → List ResourceStatus → List NamespaceClass
  | [], _, _ => []
  | c :: rest, n, rs =>
    if c.name = n then { c with status := ⟨rs⟩ } :: rest else c :: putClasses rest n rs

/-- `Get` on a namespace, by name. -/
def findNs : List NsObj → String → Option NsObj
  | [], _ => none
  | x :: rest, n => if x.name = n then some x else findNs rest n

/-- `Update` on a namespace: overwrite the stored object. -/
def putNamespaces : List NsObj → NsObj → List NsObj
  | [], _ => []
  | x :: rest, n => if x.name = n.name then n :: rest else x :: putNamespaces rest n

def Store.getObj (st : Store) (k : ObjKey) : Option String := lookupObj st.objects k

def createObj (st : Store) (k : ObjKey) (payload : String) : Store :=
  { st with objects := (k, payload) :: st.objects }

def updateObj (st : Store) (k : ObjKey) (payload : String) : Store :=
  { st with objects := updateA st.objects k payload }

def deleteObj (st : Store) (k : ObjKey) : Store :=
  { st with objects := removeA st.objects k }

def lookupClass (st : Store) (n : String) : Option NamespaceClass := findClass st.classes n

/-- `Status().Update`: `NotFound` if the class is gone from the store. -/
def putClassStatusE (st : Store) (n : String) (rs : List ResourceStatus) : Except Err Store :=
  if (findClass st.classes n).isSome then
    .ok { st with classes := putClasses st.classes n rs }
  else .error .notFound

def lookupNs (st : Store) (n : String) : Option NsObj := findNs st.namespaces n

/-- `Update` on a namespace: `NotFound` if it is gone from the store. -/
def putNsE (st : Store) (nsp : NsObj) : Except Err Store :=
  if (findNs st.namespaces nsp.name).isSome then
    .ok { st with namespaces := putNamespaces st.namespaces nsp }
  else .error .notFound

/-- The zero value of `akuityiov1.NamespaceClass`, left in place when
`fetchNamespaceClass` swallows a `NotFound`. -/
def zeroClass : NamespaceClass := ⟨"", ⟨[]⟩, ⟨[]⟩⟩

/-- The zero value of `corev1.Namespace`, left in place when
`fetchNamespace` swallows a `NotFound`. -/
def zeroNs : NsObj := ⟨"", [], []⟩

/-- The address a decoded object occupies
(`client.ObjectKeyFromObject` plus its group-version-kind). -/
def keyOf (o : UObj) : ObjKey := ⟨o.apiVersion, o.kind, o.name, o.ns⟩

/-- The ledger entry recorded for an applied object. -/
def tripleOf (o : UObj) : ResourceStatus := ⟨o.kind, o.name, o.apiVersion⟩

/-! ## The controller functions, translated from
    `internal/controller/namespace_controller.go` -/

/-- `resourceExistsInNamespaceClassStatus`: linear scan of the ledger for
an entry whose name, apiVersion and kind all match the object. -/
def resourceExistsInNamespaceClassStatus
    (objName objAPIVersion objKind : String) : List ResourceStatus → Bool
  | [] => false
  | r :: rest =>
    if r.name = objName ∧ r.apiVersion = objAPIVersion ∧ r.kind = objKind then true
    else resourceExistsInNamespaceClassStatus objName objAPIVersion objKind rest

/-- `resourceExistsInNamespaceClass`: scan of `spec.resources`, decoding
each manifest; a failed `UnmarshalJSON` makes the whole check return
`false` at that point (the error is swallowed), and a decoded manifest
matches when its `GroupVersionKind()` equals the object's. -/
def resourceExistsInNamespaceClass
    (objAPIVersion objKind : String) : List RawManifest → Bool
  | [] => false
  | .bad :: _ => false
  | .ok o :: rest =>
    if o.apiVersion = objAPIVersion ∧ o.kind = objKind then true
    else resourceExistsInNamespaceClass objAPIVersion objKind rest

/-- The ledger bookkeeping at the end of each `handleResources`
iteration: append `{kind, name, apiVersion}` if absent and persist the
class status (the source inlines this block). -/
def ledgerStep (st : Store) (nc : NamespaceClass)
    (objName objAPIVersion objKind : String) : Res NamespaceClass :=
  if resourceExistsInNamespaceClassStatus objName objAPIVersion objKind nc.status.resources then
    ([], st, .ok nc)
  else
    let rs := nc.status.resources ++ [⟨objKind, objName, objAPIVersion⟩]
    let nc1 := { nc with status := ⟨rs⟩ }
    match putClassStatusE st nc.name rs with
    | .ok st1 => ([.statusUpdate nc.name rs], st1, .ok nc1)
    | .error e => ([.statusUpdate nc.name rs], st, .error e)

/-- The loop body of `handleResources` over `spec.resources`.  A failed
decode aborts with the error; otherwise the object's namespace is set,
the live object is looked up (`r.Get` overwrites `obj` with the live
state on success), an absent object is created from the manifest and a
present one is updated with the just-fetched content, and the ledger is
maintained. -/
def handleResourcesLoop (nsName : String) :
    List RawManifest → Store → NamespaceClass → Res NamespaceClass
  | [], st, nc => ([], st, .ok nc)
  | .bad :: _, st, _ => ([], st, .error .decodeError)
  | .ok o0 :: rest, st, nc =>
    let o := { o0 with ns := nsName }
    let key := keyOf o
    match st.getObj key with
    | none =>
      -- IsNotFound: create the decoded manifest (cannot collide: the key
      -- was just found absent)
      let st1 := createObj st key o.payload
      match ledgerStep st1 nc o.name o.apiVersion o.kind with
      | (lops, st2, .error e) => (.getOp key :: .createOp key o.payload :: lops, st2, .error e)
      | (lops, st2, .ok nc1) =>
        let r := handleResourcesLoop nsName rest st2 nc1
        (.getOp key :: .createOp key o.payload :: lops ++ r.1, r.2.1, r.2.2)
    | some live =>
      -- obj now holds the live object; Update writes that back
      let st1 := updateObj st key live
      match ledgerStep st1 nc o.name o.apiVersion o.kind with
      | (lops, st2, .error e) => (.getOp key :: .updateOp key live :: lops, st2, .error e)
      | (lops, st2, .ok nc1) =>
        let r := handleResourcesLoop nsName rest st2 nc1
        (.getOp key :: .updateOp key live :: lops ++ r.1, r.2.1, r.2.2)

/-- `handleResources`. -/
def handleResources (st : Store) (nsp : NsObj) (nc : NamespaceClass) : Res NamespaceClass :=
  handleResourcesLoop nsp.name nc.spec.resources st nc

/-- The loop body of `handleNamespaceClassChange` over the old class's
`spec.resources`: decode (fatal on failure), look the object up in the
target namespace (`NotFound` ⇒ continue), and delete it unless its
group-version-kind still exists in the new class. -/
def handleNamespaceClassChangeLoop (nsName : String) (nc : NamespaceClass) :
    List RawManifest → Store → Res Unit
  | [], st => ([], st, .ok ())
  | .bad :: _, st => ([], st, .error .decodeError)
  | .ok o0 :: rest, st =>
    let o := { o0 with ns := nsName }
    let key := keyOf o
    match st.getObj key with
    | none =>
      let r := handleNamespaceClassChangeLoop nsName nc rest st
      (.getOp key :: r.1, r.2.1, r.2.2)
    | some _ =>
      if resourceExistsInNamespaceClass key.apiVersion key.kind nc.spec.resources then
        let r := handleNamespaceClassChangeLoop nsName nc rest st
        (.getOp key :: r.1, r.2.1, r.2.2)
      else
        -- the object was just fetched, so this Delete succeeds
        let st1 := deleteObj st key
        let r := handleNamespaceClassChangeLoop nsName nc rest st1
        (.getOp key :: .deleteOp key :: r.1, r.2.1, r.2.2)

/-- `handleNamespaceClassChange`: fetch the old class by the previous
name (`fetchNamespaceClass` swallows `NotFound`, leaving the zero value)
and sweep its declared resources. -/
def handleNamespaceClassChange (st : Store) (nsp : NsObj) (lastName : String)
    (nc : NamespaceClass) : Res Unit :=
  let oldNc := (lookupClass st lastName).getD zeroClass
  handleNamespaceClassChangeLoop nsp.name nc oldNc.spec.resources st

/-- In-place removal of index `i` from the first `len` cells of the
backing array, as `append(s[:i], s[i+1:]...)` performs it: cells
`i+1 … len-1` shift one place left and every other cell keeps its old
value (so cell `len-1` retains a stale copy of the old last element). -/
def removeShift (arr : List ResourceStatus) (i len : Nat) : List ResourceStatus :=
  arr.take i ++ (arr.take len).drop (i + 1) ++ arr.drop (len - 1)

/-- The inner loop of `handleResourcesDeletion`: `for i, statusResource
:= range namespaceClass.Status.Resources` snapshots the slice header
(length `L`) once, while the body reassigns the field to a one-shorter
slice over the same backing array and persists the status after each
removal.  Later iterations therefore read the mutated array.  A match at
an index at or beyond the current length would make the source slice
expression `[i+1:]` panic. `remaining` counts the iterations left
(`L - j`). -/
def sweepInnerLoop (className : String) (t : ResourceStatus) :
    Nat → Nat → List ResourceStatus → Nat → Store →
    List Op × List ResourceStatus × Nat × Store × Except Err Unit
  | 0, _, arr, curLen, st => ([], arr, curLen, st, .ok ())
  | r + 1, j, arr, curLen, st =>
    let sRes := arr.getD j ⟨"", "", ""⟩
    if sRes.name = t.name ∧ sRes.apiVersion = t.apiVersion ∧ sRes.kind = t.kind then
      if j < curLen then
        let arr1 := removeShift arr j curLen
        let curLen1 := curLen - 1
        match putClassStatusE st className (arr1.take curLen1) with
        | .ok st1 =>
          let rec1 := sweepInnerLoop className t r (j + 1) arr1 curLen1 st1
          (.statusUpdate className (arr1.take curLen1) :: rec1.1,
           rec1.2.1, rec1.2.2.1, rec1.2.2.2.1, rec1.2.2.2.2)
        | .error e =>
          ([.statusUpdate className (arr1.take curLen1)], arr1, curLen1, st, .error e)
      else
        ([], arr, curLen, st, .error .sliceBounds)
    else
      sweepInnerLoop className t r (j + 1) arr curLen st

/-- The outer loop of `handleResourcesDeletion`: iterate the positions
of the slice as it stood on entry (`n0` cells), reading the mutated
backing array; an entry whose group-version-kind is absent from the
current spec is deleted from the store (a `NotFound` here is returned,
not tolerated) and scrubbed from the ledger by the inner loop. -/
def sweepOuterLoop (nsName className : String) (spec : List RawManifest) :
    Nat → Nat → List ResourceStatus → Nat → Store →
    List Op × List ResourceStatus × Nat × Store × Except Err Unit
  | 0, _, arr, curLen, st => ([], arr, curLen, st, .ok ())
  | r + 1, k, arr, curLen, st =>
    let res := arr.getD k ⟨"", "", ""⟩
    if resourceExistsInNamespaceClass res.apiVersion res.kind spec then
      sweepOuterLoop nsName className spec r (k + 1) arr curLen st
    else
      let key : ObjKey := ⟨res.apiVersion, res.kind, res.name, nsName⟩
      match st.getObj key with
      | none => ([.deleteOp key], arr, curLen, st, .error .notFound)
      | some _ =>
        let st1 := deleteObj st key
        let inner := sweepInnerLoop className res curLen 0 arr curLen st1
        match inner.2.2.2.2 with
        | .error e =>
          (.deleteOp key :: inner.1, inner.2.1, inner.2.2.1, inner.2.2.2.1, .error e)
        | .ok _ =>
          let outer := sweepOuterLoop nsName className spec r (k + 1)
            inner.2.1 inner.2.2.1 inner.2.2.2.1
          (.deleteOp key :: inner.1 ++ outer.1, outer.2.1, outer.2.2.1,
           outer.2.2.2.1, outer.2.2.2.2)

/-- `handleResourcesDeletion`: the orphan sweep over the (in-memory)
ledger of the active class. -/
def handleResourcesDeletion (st : Store) (nsp : NsObj) (nc : NamespaceClass) :
    Res NamespaceClass :=
  let arr := nc.status.resources
  let n0 := arr.length
  let r := sweepOuterLoop nsp.name nc.name nc.spec.resources n0 0 arr n0 st
  (r.1, r.2.2.2.1, r.2.2.2.2.map fun _ => { nc with status := ⟨r.2.1.take r.2.2.1⟩ })

/-- The tail of `handleNamespaceAnnotations`: persist the namespace
(`r.Update`), then run the orphan sweep. -/
def handleNamespaceAnnotationsTail (st : Store) (nsp : NsObj) (nc : NamespaceClass) :
    Res (NsObj × NamespaceClass) :=
  match putNsE st nsp with
  | .error e => ([.nsUpdate nsp], st, .error e)
  | .ok st1 =>
    match handleResourcesDeletion st1 nsp nc with
    | (dops, st2, .error e) => (.nsUpdate nsp :: dops, st2, .error e)
    | (dops, st2, .ok nc1) => (.nsUpdate nsp :: dops, st2, .ok (nsp, nc1))

/-- `handleNamespaceAnnotations`: initialise or advance the `last-name`
annotation in memory, run the class-change sweep when the name changed,
persist the namespace once, then run the orphan sweep. -/
def handleNamespaceAnnotations (st : Store) (nsp : NsObj) (nc : NamespaceClass) :
    Res (NsObj × NamespaceClass) :=
  match getA nsp.annotations lastNameKey with
  | none =>
    let nsp1 := { nsp with annotations := setA nsp.annotations lastNameKey nc.name }
    handleNamespaceAnnotationsTail st nsp1 nc
  | some lastName =>
    if lastName = nc.name then
      handleNamespaceAnnotationsTail st nsp nc
    else
      let nsp1 := { nsp with annotations := setA nsp.annotations lastNameKey nc.name }
      match handleNamespaceClassChange st nsp1 lastName nc with
      | (cops, st1, .error e) => (cops, st1, .error e)
      | (cops, st1, .ok _) =>
        let t := handleNamespaceAnnotationsTail st1 nsp1 nc
        (cops ++ t.1, t.2.1, t.2.2)

/-- `Reconcile`: fetch the namespace (`NotFound` is swallowed, leaving
the zero value, whose empty labels end the pass), resolve the class by
label (`NotFound` again swallowed, leaving the zero-value class), then
run the convergence stage followed by the annotation stage. -/
def Reconcile (st : Store) (reqName : String) : Res Unit :=
  let nsp := (lookupNs st reqName).getD zeroNs
  match getA nsp.labels classLabelKey with
  | none => ([], st, .ok ())
  | some classLabel =>
    let nc := (lookupClass st classLabel).getD zeroClass
    match handleResources st nsp nc with
    | (rops, st1, .error e) => (rops, st1, .error e)
    | (rops, st1, .ok nc1) =>
      match handleNamespaceAnnotations st1 nsp nc1 with
      | (aops, st2, .error e) => (rops ++ aops, st2, .error e)
      | (aops, st2, .ok _) => (rops ++ aops, st2, .ok ())

/-- The filter loop of `mapNamespaceClassToNamespaces`: a namespace
matches when its class label (Go's zero value `""` when the label is
absent) equals the class's name, and contributes one request carrying
its name. -/
def mapLoop (className : String) : List NsObj → List String
  | [] => []
  | n :: rest =>
    if (getA n.labels classLabelKey).getD "" = className then
      n.name :: mapLoop className rest
    else mapLoop className rest

/-- `mapNamespaceClassToNamespaces`: the result of listing all
namespaces is passed in (`.error` when the List call failed, which the
source swallows, returning nil). -/
def mapNamespaceClassToNamespaces (nc : NamespaceClass)
    (listResult : Except Err (List NsObj)) : List String :=
  match listResult with
  | .error _ => []
  | .ok items => mapLoop nc.name items

/-! ## Classifiers over the call trace -/

def Op.isGet : Op → Bool
  | .getOp _ => true
  | _ => false

def Op.isCreate : Op → Bool
  | .createOp _ _ => true
  | _ => false

def Op.isUpdate : Op → Bool
  | .updateOp _ _ => true
  | _ => false

def Op.isDelete : Op → Bool
  | .deleteOp _ => true
  | _ => false

def Op.isStatusUpdate : Op → Bool
  | .statusUpdate _ _ => true
  | _ => false

def Op.isNsUpdate : Op → Bool
  | .nsUpdate _ => true
  | _ => false

/-- A call that mutates the store (everything except a read). -/
def Op.isMutation (op : Op) : Bool := !op.isGet

/-- Decodability of a whole manifest list. -/
def isOkM : RawManifest → Bool
  | .ok _ => true
  | .bad => false

/-! ## Concrete scenario inputs used to settle the claims -/

/-- Claim C1 scenario: a namespace labeled with a class that is not in
the store, reconciled for the first time. -/
def c1ns : NsObj := ⟨"n1", [(classLabelKey, "missing")], []⟩

def c1Store : Store := ⟨[c1ns], [], []⟩

/-- Claim C2 scenario: a class whose second manifest is undecodable. -/
def c2mfX : UObj := ⟨"v1", "X", "x", "", "px"⟩

def c2Class : NamespaceClass := ⟨"c2", ⟨[.ok c2mfX, .bad]⟩, ⟨[]⟩⟩

def c2ns : NsObj := ⟨"n2", [(classLabelKey, "c2")], []⟩

def c2Store : Store := ⟨[c2ns], [c2Class], []⟩

/-- Claim C3 scenario: the declared ConfigMap `b` already lives in the
namespace with drifted content, and the ledger still holds a stale entry
`a` of the same apiVersion and kind. -/
def c3mfB : UObj := ⟨"v1", "CM", "b", "", "desired"⟩

def c3Class : NamespaceClass := ⟨"c3", ⟨[.ok c3mfB]⟩, ⟨[⟨"CM", "a", "v1"⟩]⟩⟩

def c3ns : NsObj := ⟨"n3", [(classLabelKey, "c3")], []⟩

def c3Store : Store :=
  ⟨[c3ns], [c3Class], [(⟨"v1", "CM", "a", "n3"⟩, "x"), (⟨"v1", "CM", "b", "n3"⟩, "drifted")]⟩

/-- Claim C4 scenario: the namespace was bound to class `a4` declaring
kinds X and Y, and is now labeled with class `b4` declaring Y and Z. -/
def c4mfX : UObj := ⟨"v1", "X", "x", "", "px"⟩

def c4mfY : UObj := ⟨"v1", "Y", "y", "", "py"⟩

def c4mfZ : UObj := ⟨"v1", "Z", "z", "", "pz"⟩

def c4A : NamespaceClass := ⟨"a4", ⟨[.ok c4mfX, .ok c4mfY]⟩, ⟨[]⟩⟩

def c4B : NamespaceClass := ⟨"b4", ⟨[.ok c4mfY, .ok c4mfZ]⟩, ⟨[]⟩⟩

def c4ns : NsObj := ⟨"n4", [(classLabelKey, "b4")], [(lastNameKey, "a4")]⟩

def c4Store : Store :=
  ⟨[c4ns], [c4A, c4B], [(⟨"v1", "X", "x", "n4"⟩, "lx"), (⟨"v1", "Y", "y", "n4"⟩, "ly")]⟩

/-- Claim C5 scenario: the ledger of class `c5` holds two orphan entries
(`A/a` and `B/b`, no longer declared) followed by the declared entry. -/
def c5mfK : UObj := ⟨"v1", "CM", "k", "", "pk"⟩

def c5Class : NamespaceClass :=
  ⟨"c5", ⟨[.ok c5mfK]⟩, ⟨[⟨"A", "a", "v1"⟩, ⟨"B", "b", "v1"⟩, ⟨"CM", "k", "v1"⟩]⟩⟩

def c5ns : NsObj := ⟨"n5", [(classLabelKey, "c5")], [(lastNameKey, "c5")]⟩

def c5Store : Store :=
  ⟨[c5ns], [c5Class],
   [(⟨"v1", "A", "a", "n5"⟩, "pa"), (⟨"v1", "B", "b", "n5"⟩, "pb"),
    (⟨"v1", "CM", "k", "n5"⟩, "pk0")]⟩

/-- Claim C6 scenario: three namespaces, two of them labeled with the
changed class. -/
def c6Class : NamespaceClass := ⟨"c6", ⟨[]⟩, ⟨[]⟩⟩

def c6nsList : List NsObj :=
  [⟨"w1", [(classLabelKey, "c6")], []⟩, ⟨"w2", [], []⟩, ⟨"w3", [(classLabelKey, "c6")], []⟩]

/-- Claim C7 scenario: the namespace switches from class `a7` (whose
only manifest is undecodable) to class `c7`, so the class-change sweep
fails before the namespace is persisted. -/
def c7C : NamespaceClass := ⟨"c7", ⟨[]⟩, ⟨[]⟩⟩

def c7A : NamespaceClass := ⟨"a7", ⟨[.bad]⟩, ⟨[]⟩⟩

def c7ns : NsObj := ⟨"n7", [(classLabelKey, "c7")], [(lastNameKey, "a7")]⟩

def c7Store : Store := ⟨[c7ns], [c7C, c7A], []⟩

/-- Witness input for the amended claim C7: a namespace already on its
class, so no class change is detected. -/
def c7wC : NamespaceClass := ⟨"cw", ⟨[]⟩, ⟨[]⟩⟩

def c7wns : NsObj := ⟨"nw", [(classLabelKey, "cw")], [(lastNameKey, "cw")]⟩

def c7wStore : Store := ⟨[c7wns], [c7wC], []⟩

/-- Claim C8 scenario: class `c8` with two orphan ledger entries; the
first pass misses one of them, so the second pass still mutates. -/
def c8mfK : UObj := ⟨"v1", "CM", "k", "", "qk"⟩

def c8Class : NamespaceClass :=
  ⟨"c8", ⟨[.ok c8mfK]⟩, ⟨[⟨"A", "a", "v1"⟩, ⟨"B", "b", "v1"⟩, ⟨"CM", "k", "v1"⟩]⟩⟩

def c8ns : NsObj := ⟨"n8", [(classLabelKey, "c8")], [(lastNameKey, "c8")]⟩

def c8Store : Store :=
  ⟨[c8ns], [c8Class],
   [(⟨"v1", "A", "a", "n8"⟩, "qa"), (⟨"v1", "B", "b", "n8"⟩, "qb"),
    (⟨"v1", "CM", "k", "n8"⟩, "qk0")]⟩

/-- Witness input for the amended claim C8: the same shape with a clean
ledger. -/
def c8wClass : NamespaceClass := ⟨"c8w", ⟨[.ok c8mfK]⟩, ⟨[⟨"CM", "k", "v1"⟩]⟩⟩

def c8wns : NsObj := ⟨"n8w", [(classLabelKey, "c8w")], [(lastNameKey, "c8w")]⟩

def c8wStore : Store := ⟨[c8wns], [c8wClass], [(⟨"v1", "CM", "k", "n8w"⟩, "qk1")]⟩

/-- Claim C9 scenario: class `c9` declares kind Y in the manifest after
the undecodable one; a ledger entry and live object for Y exist. -/
def c9mfY : UObj := ⟨"v1", "Y", "y", "", "py"⟩

def c9Class : NamespaceClass := ⟨"c9", ⟨[.bad, .ok c9mfY]⟩, ⟨[⟨"Y", "y", "v1"⟩]⟩⟩

def c9ns : NsObj := ⟨"n9", [], []⟩

def c9Store : Store := ⟨[], [c9Class], [(⟨"v1", "Y", "y", "n9"⟩, "ly")]⟩

/-- Witness input for claim C10. -/
def c10mf : UObj := ⟨"v1", "CM", "m", "", "pm"⟩

def c10Class : NamespaceClass := ⟨"c10", ⟨[.ok c10mf]⟩, ⟨[]⟩⟩

def c10ns : NsObj := ⟨"n10", [], []⟩

def c10Key : ObjKey := ⟨"v1", "Old", "o", "n10"⟩

def c10Store : Store := ⟨[], [c10Class], [(c10Key, "old")]⟩

/-! ## Lemmas about the store primitives -/

theorem getA_setA_self (m : List (String × String)) (k v : String) :
    getA (setA m k v) k = some v := by
  induction m with
  | nil => simp [setA, getA]
  | cons p rest ih =>
    by_cases h : p.1 = k
    · simp [setA, h, getA]
    · simp [setA, h, getA, ih]

theorem getA_setA_ne (m : List (String × String)) (k v k' : String) (h : k' ≠ k) :
    getA (setA m k v) k' = getA m k' := by
  have h' : ¬(k = k') := fun hh => h hh.symm
  induction m with
  | nil => simp [setA, getA, h']
  | cons p rest ih =>
    by_cases hp : p.1 = k
    · have hp' : ¬(p.1 = k') := by rw [hp]; exact h'
      simp [setA, hp, getA, h', hp']
    · simp only [setA, hp, if_false, getA]
      by_cases hk : p.1 = k'
      · simp [hk]
      · simp [hk, ih]

theorem lookupObj_updateA_ne (l : List (ObjKey × String)) (k : ObjKey) (v : String)
    (k' : ObjKey) (h : k' ≠ k) : lookupObj (updateA l k v) k' = lookupObj l k' := by
  have h' : ¬(k = k') := fun hh => h hh.symm
  induction l with
  | nil => simp [updateA, lookupObj]
  | cons p rest ih =>
    by_cases hp : p.1 = k
    · have hp' : ¬(p.1 = k') := by rw [hp]; exact h'
      simp [updateA, hp, lookupObj, h', hp', ih]
    · simp only [updateA, hp, if_false, lookupObj]
      by_cases hk : p.1 = k'
      · simp [hk]
      · simp [hk, ih]

theorem lookupObj_updateA_self (l : List (ObjKey × String)) (k : ObjKey) (v : String)
    (h : (lookupObj l k).isSome) : lookupObj (updateA l k v) k = some v := by
  induction l with
  | nil => simp [lookupObj] at h
  | cons p rest ih =>
    by_cases hp : p.1 = k
    · simp [updateA, hp, lookupObj]
    · simp only [lookupObj, hp, if_false] at h
      simp [updateA, hp, lookupObj, ih h]

theorem updateA_eq_of_lookup (l : List (ObjKey × String)) (k : ObjKey) (v : String)
    (h : lookupObj l k = some v) : updateA l k v = l := by
  induction l with
  | nil => simp [lookupObj] at h
  | cons p rest ih =>
    by_cases hp : p.1 = k
    · simp only [lookupObj, hp, if_true, Option.some.injEq] at h
      cases p with
      | mk pk pv => simp_all [updateA]
    · simp only [lookupObj, hp, if_false] at h
      simp [updateA, hp, ih h]

theorem lookupObj_removeA_self (l : List (ObjKey × String)) (k : ObjKey) :
    lookupObj (removeA l k) k = none := by
  induction l with
  | nil => simp [removeA, lookupObj]
  | cons p rest ih =>
    by_cases hp : p.1 = k
    · simp [removeA, hp, ih]
    · simp [removeA, hp, lookupObj, ih]

theorem lookupObj_removeA_ne (l : List (ObjKey × String)) (k k' : ObjKey) (h : k' ≠ k) :
    lookupObj (removeA l k) k' = lookupObj l k' := by
  have h' : ¬(k = k') := fun hh => h hh.symm
  induction l with
  | nil => simp [removeA]
  | cons p rest ih =>
    by_cases hp : p.1 = k
    · have hp' : ¬(p.1 = k') := by rw [hp]; exact h'
      rw [removeA]
      simp only [hp, if_true, ih]
      rw [lookupObj]
      simp [hp']
    · rw [removeA]
      simp only [hp, if_false]
      rw [lookupObj, lookupObj, ih]

theorem lookupObj_cons_self (l : List (ObjKey × String)) (k : ObjKey) (v : String) :
    lookupObj ((k, v) :: l) k = some v := by simp [lookupObj]

theorem lookupObj_cons_ne (l : List (ObjKey × String)) (k k' : ObjKey) (v : String)
    (h : k' ≠ k) : lookupObj ((k, v) :: l) k' = lookupObj l k' := by
  have h' : ¬(k = k') := fun hh => h hh.symm
  simp [lookupObj, h']

theorem findClass_name (cs : List NamespaceClass) (n : String) (c : NamespaceClass)
    (h : findClass cs n = some c) : c.name = n := by
  induction cs with
  | nil => simp [findClass] at h
  | cons c0 rest ih =>
    by_cases hc : c0.name = n
    · simp only [findClass, hc, if_true, Option.some.injEq] at h
      exact h ▸ hc
    · simp only [findClass, hc, if_false] at h
      exact ih h

theorem findClass_putClasses_self (cs : List NamespaceClass) (n : String)
    (rs : List ResourceStatus) (c : NamespaceClass) (h : findClass cs n = some c) :
    findClass (putClasses cs n rs) n = some { c with status := ⟨rs⟩ } := by
  induction cs with
  | nil => simp [findClass] at h
  | cons c0 rest ih =>
    by_cases hc : c0.name = n
    · simp only [findClass, hc, if_true, Option.some.injEq] at h
      subst h
      simp [putClasses, hc, findClass]
    · simp only [findClass, hc, if_false] at h
      simp [putClasses, hc, findClass, ih h]

theorem findClass_putClasses_ne (cs : List NamespaceClass) (n : String)
    (rs : List ResourceStatus) (nm : String) (h : nm ≠ n) :
    findClass (putClasses cs n rs) nm = findClass cs nm := by
  induction cs with
  | nil => simp [putClasses, findClass]
  | cons c0 rest ih =>
    by_cases hc : c0.name = n
    · have h2 : ¬(n = nm) := fun hh => h hh.symm
      simp [putClasses, hc, findClass, h2]
    · rw [putClasses]
      simp only [hc, if_false]
      rw [findClass, findClass, ih]

theorem findClass_putClasses_map (cs : List NamespaceClass) (n : String)
    (rs : List ResourceStatus) (nm : String) :
    ((findClass (putClasses cs n rs) nm).map fun c => (c.name, c.spec)) =
      ((findClass cs nm).map fun c => (c.name, c.spec)) := by
  induction cs with
  | nil => simp [putClasses, findClass]
  | cons c0 rest ih =>
    by_cases hc : c0.name = n
    · rw [putClasses]
      simp only [hc, if_true]
      rw [findClass, findClass]
      by_cases hm : c0.name = nm
      · have hnm : n = nm := hc.symm.trans hm
        simp [hm, hnm]
      · have hnm : ¬(n = nm) := by rw [← hc]; exact hm
        simp [hm, hnm]
    · rw [putClasses]
      simp only [hc, if_false]
      rw [findClass, findClass]
      by_cases hm : c0.name = nm
      · simp [hm]
      · simp only [hm, if_false]
        exact ih

theorem findClass_isSome_putClasses (cs : List NamespaceClass) (n : String)
    (rs : List ResourceStatus) (nm : String) :
    (findClass (putClasses cs n rs) nm).isSome = (findClass cs nm).isSome := by
  have h := findClass_putClasses_map cs n rs nm
  cases h1 : findClass (putClasses cs n rs) nm <;> cases h2 : findClass cs nm <;>
    simp_all

theorem findNs_name (l : List NsObj) (n : String) (x : NsObj)
    (h : findNs l n = some x) : x.name = n := by
  induction l with
  | nil => simp [findNs] at h
  | cons x0 rest ih =>
    by_cases hc : x0.name = n
    · simp only [findNs, hc, if_true, Option.some.injEq] at h
      exact h ▸ hc
    · simp only [findNs, hc, if_false] at h
      exact ih h

theorem putNamespaces_self_eq (l : List NsObj) (x : NsObj)
    (h : findNs l x.name = some x) : putNamespaces l x = l := by
  induction l with
  | nil => simp [findNs] at h
  | cons x0 rest ih =>
    by_cases hc : x0.name = x.name
    · simp only [findNs, hc, if_true, Option.some.injEq] at h
      simp [putNamespaces, hc, h]
    · simp only [findNs, hc, if_false] at h
      simp [putNamespaces, hc, ih h]

theorem findNs_putNamespaces_self (l : List NsObj) (x : NsObj)
    (h : (findNs l x.name).isSome) : findNs (putNamespaces l x) x.name = some x := by
  induction l with
  | nil => simp [findNs] at h
  | cons x0 rest ih =>
    by_cases hc : x0.name = x.name
    · simp [putNamespaces, hc, findNs]
    · simp only [findNs, hc, if_false] at h
      simp [putNamespaces, hc, findNs, ih h]

theorem findNs_putNamespaces_ne (l : List NsObj) (x : NsObj) (nm : String)
    (h : nm ≠ x.name) : findNs (putNamespaces l x) nm = findNs l nm := by
  induction l with
  | nil => simp [putNamespaces]
  | cons x0 rest ih =>
    by_cases hc : x0.name = x.name
    · have hx : ¬(x.name = nm) := fun hh => h hh.symm
      have hc' : ¬(x0.name = nm) := by rw [hc]; exact hx
      simp [putNamespaces, hc, findNs, hx, hc']
    · rw [putNamespaces]
      simp only [hc, if_false]
      rw [findNs, findNs, ih]

/-! ## Lemmas about the membership checks -/

theorem existsInStatus_iff_mem (objName objAPIVersion objKind : String)
    (l : List ResourceStatus) :
    resourceExistsInNamespaceClassStatus objName objAPIVersion objKind l = true ↔
      (⟨objKind, objName, objAPIVersion⟩ : ResourceStatus) ∈ l := by
  induction l with
  | nil => simp [resourceExistsInNamespaceClassStatus]
  | cons r rest ih =>
    rw [resourceExistsInNamespaceClassStatus]
    by_cases h : r.name = objName ∧ r.apiVersion = objAPIVersion ∧ r.kind = objKind
    · simp only [h, if_true, true_iff]
      cases r
      simp_all
    · simp only [h, if_false, ih, List.mem_cons]
      constructor
      · exact Or.inr
      · rintro (he | hm)
        · cases r
          simp only [ResourceStatus.mk.injEq] at he
          exact absurd ⟨he.2.1.symm, he.2.2.symm, he.1.symm⟩ h
        · exact hm

theorem existsInClass_of_mem (av kd : String) (rs : List RawManifest)
    (hall : rs.all isOkM = true) (o : UObj) (ho : RawManifest.ok o ∈ rs)
    (hav : o.apiVersion = av) (hkd : o.kind = kd) :
    resourceExistsInNamespaceClass av kd rs = true := by
  induction rs with
  | nil => simp at ho
  | cons m rest ih =>
    simp only [List.all_cons, Bool.and_eq_true] at hall
    cases m with
    | bad => simp [isOkM] at hall
    | ok o' =>
      rw [resourceExistsInNamespaceClass]
      by_cases h : o'.apiVersion = av ∧ o'.kind = kd
      · simp [h]
      · simp only [h, if_false]
        rcases List.mem_cons.mp ho with he | hm
        · cases he
          exact absurd ⟨hav, hkd⟩ h
        · exact ih hall.2 hm

theorem existsInClass_of_allOk_prefixed (av kd : String) (pre rest : List RawManifest)
    (hall : pre.all isOkM = true) :
    resourceExistsInNamespaceClass av kd (pre ++ RawManifest.bad :: rest) =
      resourceExistsInNamespaceClass av kd pre := by
  induction pre with
  | nil => simp [resourceExistsInNamespaceClass]
  | cons m p ih =>
    simp only [List.all_cons, Bool.and_eq_true] at hall
    cases m with
    | bad => simp [isOkM] at hall
    | ok o =>
      rw [List.cons_append, resourceExistsInNamespaceClass, resourceExistsInNamespaceClass]
      by_cases h : o.apiVersion = av ∧ o.kind = kd
      · simp [h]
      · simp [h, ih hall.2]

/-! ## Record frame facts about the store mutators -/

@[simp] theorem createObj_namespaces (st : Store) (k : ObjKey) (p : String) :
    (createObj st k p).namespaces = st.namespaces := rfl

@[simp] theorem createObj_classes (st : Store) (k : ObjKey) (p : String) :
    (createObj st k p).classes = st.classes := rfl

@[simp] theorem updateObj_namespaces (st : Store) (k : ObjKey) (p : String) :
    (updateObj st k p).namespaces = st.namespaces := rfl

@[simp] theorem updateObj_classes (st : Store) (k : ObjKey) (p : String) :
    (updateObj st k p).classes = st.classes := rfl

@[simp] theorem deleteObj_namespaces (st : Store) (k : ObjKey) :
    (deleteObj st k).namespaces = st.namespaces := rfl

@[simp] theorem deleteObj_classes (st : Store) (k : ObjKey) :
    (deleteObj st k).classes = st.classes := rfl

@[simp] theorem lookupClass_createObj (st : Store) (k : ObjKey) (p : String) (x : String) :
    lookupClass (createObj st k p) x = lookupClass st x := rfl

@[simp] theorem lookupClass_updateObj (st : Store) (k : ObjKey) (p : String) (x : String) :
    lookupClass (updateObj st k p) x = lookupClass st x := rfl

@[simp] theorem lookupClass_deleteObj (st : Store) (k : ObjKey) (x : String) :
    lookupClass (deleteObj st k) x = lookupClass st x := rfl

theorem getObj_isSome_createObj (st : Store) (k : ObjKey) (p : String) (k' : ObjKey)
    (h : (st.getObj k').isSome) : ((createObj st k p).getObj k').isSome := by
  by_cases hk : k' = k
  · subst hk
    simp [createObj, Store.getObj, lookupObj]
  · simpa [createObj, Store.getObj, lookupObj_cons_ne _ _ _ _ hk] using h

theorem getObj_isSome_updateObj (st : Store) (k : ObjKey) (p : String) (k' : ObjKey)
    (h : (st.getObj k').isSome) : ((updateObj st k p).getObj k').isSome := by
  by_cases hk : k' = k
  · subst hk
    simp only [updateObj, Store.getObj]
    rw [lookupObj_updateA_self _ _ _ h]
    simp
  · simpa [updateObj, Store.getObj, lookupObj_updateA_ne _ _ _ _ hk] using h

/-! ## The ledger bookkeeping step -/

theorem ledgerStep_frame (st : Store) (nc : NamespaceClass) (nm av kd : String) :
    (ledgerStep st nc nm av kd).2.1.namespaces = st.namespaces ∧
    (ledgerStep st nc nm av kd).2.1.objects = st.objects ∧
    (∀ x, ((lookupClass (ledgerStep st nc nm av kd).2.1 x).map fun c => (c.name, c.spec)) =
      ((lookupClass st x).map fun c => (c.name, c.spec))) ∧
    (∀ x, x ≠ nc.name → lookupClass (ledgerStep st nc nm av kd).2.1 x = lookupClass st x) ∧
    (∀ op ∈ (ledgerStep st nc nm av kd).1, op.isStatusUpdate = true) ∧
    (∀ nc1, (ledgerStep st nc nm av kd).2.2 = .ok nc1 →
      nc1.name = nc.name ∧ nc1.spec = nc.spec ∧
      (∃ ext, nc1.status.resources = nc.status.resources ++ ext ∧
        ∀ e ∈ ext, e = (⟨kd, nm, av⟩ : ResourceStatus)) ∧
      (⟨kd, nm, av⟩ : ResourceStatus) ∈ nc1.status.resources) := by
  by_cases hex : resourceExistsInNamespaceClassStatus nm av kd nc.status.resources
  · refine ⟨by simp [ledgerStep, hex], by simp [ledgerStep, hex],
      fun x => by simp [ledgerStep, hex], fun x _ => by simp [ledgerStep, hex],
      by simp [ledgerStep, hex], ?_⟩
    intro nc1 h
    simp only [ledgerStep, hex, if_true] at h
    have hh : nc = nc1 := by
      cases h
      rfl
    subst hh
    exact ⟨rfl, rfl, ⟨[], by simp, by simp⟩, (existsInStatus_iff_mem nm av kd _).mp hex⟩
  · by_cases hf : (findClass st.classes nc.name).isSome
    · refine ⟨by simp [ledgerStep, hex, putClassStatusE, hf],
        by simp [ledgerStep, hex, putClassStatusE, hf], ?_, ?_,
        by simp [ledgerStep, hex, putClassStatusE, hf, Op.isStatusUpdate], ?_⟩
      · intro x
        simp only [ledgerStep, hex, if_false, putClassStatusE, hf, if_true]
        exact findClass_putClasses_map st.classes nc.name _ x
      · intro x hx
        simp only [ledgerStep, hex, if_false, putClassStatusE, hf, if_true]
        exact findClass_putClasses_ne st.classes nc.name _ x hx
      · intro nc1 h
        simp only [ledgerStep, hex, if_false, putClassStatusE, hf, if_true] at h
        have hh : { nc with status := ⟨nc.status.resources ++ [⟨kd, nm, av⟩]⟩ } = nc1 := by
          cases h
          rfl
        subst hh
        exact ⟨rfl, rfl, ⟨[⟨kd, nm, av⟩], rfl, by simp⟩, by simp⟩
    · refine ⟨by simp [ledgerStep, hex, putClassStatusE, hf],
        by simp [ledgerStep, hex, putClassStatusE, hf],
        fun x => by simp [ledgerStep, hex, putClassStatusE, hf],
        fun x _ => by simp [ledgerStep, hex, putClassStatusE, hf],
        by simp [ledgerStep, hex, putClassStatusE, hf, Op.isStatusUpdate], ?_⟩
      intro nc1 h
      simp [ledgerStep, hex, putClassStatusE, hf] at h

theorem ledgerStep_ok (st : Store) (nc : NamespaceClass) (nm av kd : String)
    (hsync : lookupClass st nc.name = some nc) :
    ∃ nc1, (ledgerStep st nc nm av kd).2.2 = .ok nc1 ∧
      lookupClass (ledgerStep st nc nm av kd).2.1 nc.name = some nc1 := by
  rw [ledgerStep]
  by_cases hex : resourceExistsInNamespaceClassStatus nm av kd nc.status.resources
  · exact ⟨nc, by simp [hex], by simpa [hex] using hsync⟩
  · have hf : (findClass st.classes nc.name).isSome := by
      rw [lookupClass] at hsync
      simp [hsync]
    refine ⟨{ nc with status := ⟨nc.status.resources ++ [⟨kd, nm, av⟩]⟩ }, ?_, ?_⟩
    · simp [hex, putClassStatusE, hf]
    · simp only [hex, if_false, putClassStatusE, hf, if_true]
      rw [lookupClass] at hsync ⊢
      exact findClass_putClasses_self st.classes nc.name _ nc hsync

/-! ## Step equations for the convergence loop -/

theorem hrl_step_none (nsName : String) (o0 : UObj) (rest : List RawManifest)
    (st : Store) (nc : NamespaceClass)
    (hg : st.getObj (keyOf { o0 with ns := nsName }) = none)
    (lops : List Op) (st2 : Store) (nc1 : NamespaceClass)
    (hls : ledgerStep (createObj st (keyOf { o0 with ns := nsName }) o0.payload) nc
      o0.name o0.apiVersion o0.kind = (lops, st2, .ok nc1)) :
    handleResourcesLoop nsName (.ok o0 :: rest) st nc =
      (.getOp (keyOf { o0 with ns := nsName }) ::
         .createOp (keyOf { o0 with ns := nsName }) o0.payload :: lops
           ++ (handleResourcesLoop nsName rest st2 nc1).1,
       (handleResourcesLoop nsName rest st2 nc1).2.1,
       (handleResourcesLoop nsName rest st2 nc1).2.2) := by
  simp [handleResourcesLoop, hg, hls]

theorem hrl_step_none_err (nsName : String) (o0 : UObj) (rest : List RawManifest)
    (st : Store) (nc : NamespaceClass)
    (hg : st.getObj (keyOf { o0 with ns := nsName }) = none)
    (lops : List Op) (st2 : Store) (e : Err)
    (hls : ledgerStep (createObj st (keyOf { o0 with ns := nsName }) o0.payload) nc
      o0.name o0.apiVersion o0.kind = (lops, st2, .error e)) :
    handleResourcesLoop nsName (.ok o0 :: rest) st nc =
      (.getOp (keyOf { o0 with ns := nsName }) ::
         .createOp (keyOf { o0 with ns := nsName }) o0.payload :: lops, st2, .error e) := by
  simp [handleResourcesLoop, hg, hls]

theorem hrl_step_some (nsName : String) (o0 : UObj) (rest : List RawManifest)
    (st : Store) (nc : NamespaceClass) (live : String)
    (hg : st.getObj (keyOf { o0 with ns := nsName }) = some live)
    (lops : List Op) (st2 : Store) (nc1 : NamespaceClass)
    (hls : ledgerStep (updateObj st (keyOf { o0 with ns := nsName }) live) nc
      o0.name o0.apiVersion o0.kind = (lops, st2, .ok nc1)) :
    handleResourcesLoop nsName (.ok o0 :: rest) st nc =
      (.getOp (keyOf { o0 with ns := nsName }) ::
         .updateOp (keyOf { o0 with ns := nsName }) live :: lops
           ++ (handleResourcesLoop nsName rest st2 nc1).1,
       (handleResourcesLoop nsName rest st2 nc1).2.1,
       (handleResourcesLoop nsName rest st2 nc1).2.2) := by
  simp [handleResourcesLoop, hg, hls]

theorem hrl_step_some_err (nsName : String) (o0 : UObj) (rest : List RawManifest)
    (st : Store) (nc : NamespaceClass) (live : String)
    (hg : st.getObj (keyOf { o0 with ns := nsName }) = some live)
    (lops : List Op) (st2 : Store) (e : Err)
    (hls : ledgerStep (updateObj st (keyOf { o0 with ns := nsName }) live) nc
      o0.name o0.apiVersion o0.kind = (lops, st2, .error e)) :
    handleResourcesLoop nsName (.ok o0 :: rest) st nc =
      (.getOp (keyOf { o0 with ns := nsName }) ::
         .updateOp (keyOf { o0 with ns := nsName }) live :: lops, st2, .error e) := by
  simp [handleResourcesLoop, hg, hls]

/-- Frame conditions of the convergence loop, on every input and on both
outcomes: namespaces are never touched, no class loses its name or spec,
classes other than the in-memory one are untouched, no managed object is
deleted, objects outside the declared keys are untouched, and the trace
holds only get, create, update and status-update calls. -/
theorem handleResourcesLoop_frame (nsName : String) (rs : List RawManifest)
    (st : Store) (nc : NamespaceClass) :
    (handleResourcesLoop nsName rs st nc).2.1.namespaces = st.namespaces ∧
    (∀ x, ((lookupClass (handleResourcesLoop nsName rs st nc).2.1 x).map
        fun c => (c.name, c.spec)) = ((lookupClass st x).map fun c => (c.name, c.spec))) ∧
    (∀ x, x ≠ nc.name → lookupClass (handleResourcesLoop nsName rs st nc).2.1 x =
      lookupClass st x) ∧
    (∀ k, (st.getObj k).isSome → ((handleResourcesLoop nsName rs st nc).2.1.getObj k).isSome) ∧
    (∀ k, (∀ o, RawManifest.ok o ∈ rs → keyOf { o with ns := nsName } ≠ k) →
      (handleResourcesLoop nsName rs st nc).2.1.getObj k = st.getObj k) ∧
    (∀ op ∈ (handleResourcesLoop nsName rs st nc).1,
      op.isGet = true ∨ op.isCreate = true ∨ op.isUpdate = true ∨ op.isStatusUpdate = true) := by
  induction rs generalizing st nc with
  | nil =>
    simp [handleResourcesLoop]
  | cons m rest ih =>
    cases m with
    | bad => simp [handleResourcesLoop]
    | ok o0 =>
      cases hg : st.getObj (keyOf { o0 with ns := nsName }) with
      | none =>
        rcases hls : ledgerStep (createObj st (keyOf { o0 with ns := nsName }) o0.payload) nc
            o0.name o0.apiVersion o0.kind with ⟨lops, st2, r⟩
        have hframe := ledgerStep_frame (createObj st (keyOf { o0 with ns := nsName }) o0.payload)
          nc o0.name o0.apiVersion o0.kind
        rw [hls] at hframe
        obtain ⟨hfn, hfo, hfm, hfc, hfops, hfok⟩ := hframe
        cases r with
        | error e =>
          rw [hrl_step_none_err nsName o0 rest st nc hg lops st2 e hls]
          refine ⟨by simpa using hfn, ?_, ?_, ?_, ?_, ?_⟩
          · intro x
            simpa using hfm x
          · intro x hx
            simpa using hfc x hx
          · intro k hk
            have h1 : ((createObj st (keyOf { o0 with ns := nsName }) o0.payload).getObj k).isSome :=
              getObj_isSome_createObj st _ _ k hk
            simp only [Store.getObj] at h1 ⊢
            rw [hfo]
            exact h1
          · intro k hkk
            have hne := hkk o0 (by simp)
            simp only [Store.getObj]
            rw [hfo]
            simp only [createObj]
            rw [lookupObj_cons_ne _ _ _ _ (fun hh => hne hh.symm)]
          · intro op hop
            rcases List.mem_cons.mp hop with h | hop2
            · subst h; simp [Op.isGet]
            rcases List.mem_cons.mp hop2 with h | hop3
            · subst h; simp [Op.isCreate]
            exact Or.inr (Or.inr (Or.inr (hfops op hop3)))
        | ok nc1 =>
          obtain ⟨hname, _, _, _⟩ := hfok nc1 rfl
          rw [hrl_step_none nsName o0 rest st nc hg lops st2 nc1 hls]
          obtain ⟨in1, in2, in3, in4, in5, in6⟩ := ih st2 nc1
          refine ⟨?_, ?_, ?_, ?_, ?_, ?_⟩
          · rw [in1]
            simpa using hfn
          · intro x
            rw [in2 x]
            simpa using hfm x
          · intro x hx
            rw [in3 x (hname ▸ hx), hfc x hx]
            simp
          · intro k hk
            refine in4 k ?_
            have h1 : ((createObj st (keyOf { o0 with ns := nsName }) o0.payload).getObj k).isSome :=
              getObj_isSome_createObj st _ _ k hk
            simp only [Store.getObj] at h1 ⊢
            rw [hfo]
            exact h1
          · intro k hkk
            have hne := hkk o0 (by simp)
            have h2 := in5 k fun o ho => hkk o (by simp [ho])
            simp only [Store.getObj] at h2 ⊢
            rw [h2, hfo]
            simp only [createObj]
            rw [lookupObj_cons_ne _ _ _ _ (fun hh => hne hh.symm)]
          · intro op hop
            rcases List.mem_cons.mp hop with h | hop2
            · subst h; simp [Op.isGet]
            rcases List.mem_cons.mp hop2 with h | hop3
            · subst h; simp [Op.isCreate]
            rcases List.mem_append.mp hop3 with h | h
            · exact Or.inr (Or.inr (Or.inr (hfops op h)))
            · exact in6 op h
      | some live =>
        rcases hls : ledgerStep (updateObj st (keyOf { o0 with ns := nsName }) live) nc
            o0.name o0.apiVersion o0.kind with ⟨lops, st2, r⟩
        have hframe := ledgerStep_frame (updateObj st (keyOf { o0 with ns := nsName }) live)
          nc o0.name o0.apiVersion o0.kind
        rw [hls] at hframe
        obtain ⟨hfn, hfo, hfm, hfc, hfops, hfok⟩ := hframe
        cases r with
        | error e =>
          rw [hrl_step_some_err nsName o0 rest st nc live hg lops st2 e hls]
          refine ⟨by simpa using hfn, ?_, ?_, ?_, ?_, ?_⟩
          · intro x
            simpa using hfm x
          · intro x hx
            simpa using hfc x hx
          · intro k hk
            have h1 : ((updateObj st (keyOf { o0 with ns := nsName }) live).getObj k).isSome :=
              getObj_isSome_updateObj st _ _ k hk
            simp only [Store.getObj] at h1 ⊢
            rw [hfo]
            exact h1
          · intro k hkk
            have hne := hkk o0 (by simp)
            simp only [Store.getObj]
            rw [hfo]
            simp only [updateObj]
            rw [lookupObj_updateA_ne _ _ _ _ (fun hh => hne hh.symm)]
          · intro op hop
            rcases List.mem_cons.mp hop with h | hop2
            · subst h; simp [Op.isGet]
            rcases List.mem_cons.mp hop2 with h | hop3
            · subst h; simp [Op.isUpdate]
            exact Or.inr (Or.inr (Or.inr (hfops op hop3)))
        | ok nc1 =>
          obtain ⟨hname, _, _, _⟩ := hfok nc1 rfl
          rw [hrl_step_some nsName o0 rest st nc live hg lops st2 nc1 hls]
          obtain ⟨in1, in2, in3, in4, in5, in6⟩ := ih st2 nc1
          refine ⟨?_, ?_, ?_, ?_, ?_, ?_⟩
          · rw [in1]
            simpa using hfn
          · intro x
            rw [in2 x]
            simpa using hfm x
          · intro x hx
            rw [in3 x (hname ▸ hx), hfc x hx]
            simp
          · intro k hk
            refine in4 k ?_
            have h1 : ((updateObj st (keyOf { o0 with ns := nsName }) live).getObj k).isSome :=
              getObj_isSome_updateObj st _ _ k hk
            simp only [Store.getObj] at h1 ⊢
            rw [hfo]
            exact h1
          · intro k hkk
            have hne := hkk o0 (by simp)
            have h2 := in5 k fun o ho => hkk o (by simp [ho])
            simp only [Store.getObj] at h2 ⊢
            rw [h2, hfo]
            simp only [updateObj]
            rw [lookupObj_updateA_ne _ _ _ _ (fun hh => hne hh.symm)]
          · intro op hop
            rcases List.mem_cons.mp hop with h | hop2
            · subst h; simp [Op.isGet]
            rcases List.mem_cons.mp hop2 with h | hop3
            · subst h; simp [Op.isUpdate]
            rcases List.mem_append.mp hop3 with h | h
            · exact Or.inr (Or.inr (Or.inr (hfops op h)))
            · exact in6 op h

/-- What a successful run of the convergence loop guarantees, when the
in-memory class agrees with the stored one: the surviving class value
keeps name and spec and stays in sync with the store, the ledger only
grew by triples of declared manifests, every decodable declared manifest
now has a live object at its address and a matching ledger entry, and
success implies every manifest decoded. -/
theorem handleResourcesLoop_ok (nsName : String) (rs : List RawManifest)
    (st : Store) (nc : NamespaceClass) (nc' : NamespaceClass)
    (hsync : lookupClass st nc.name = some nc)
    (hres : (handleResourcesLoop nsName rs st nc).2.2 = .ok nc') :
    nc'.name = nc.name ∧ nc'.spec = nc.spec ∧
    lookupClass (handleResourcesLoop nsName rs st nc).2.1 nc.name = some nc' ∧
    (∃ ext, nc'.status.resources = nc.status.resources ++ ext ∧
      ∀ e ∈ ext, ∃ o, RawManifest.ok o ∈ rs ∧ e = (⟨o.kind, o.name, o.apiVersion⟩ : ResourceStatus)) ∧
    (∀ o, RawManifest.ok o ∈ rs →
      ((handleResourcesLoop nsName rs st nc).2.1.getObj (keyOf { o with ns := nsName })).isSome ∧
      (⟨o.kind, o.name, o.apiVersion⟩ : ResourceStatus) ∈ nc'.status.resources) ∧
    rs.all isOkM = true := by
  induction rs generalizing st nc with
  | nil =>
    simp only [handleResourcesLoop] at hres ⊢
    have hh : nc = nc' := by
      cases hres
      rfl
    subst hh
    exact ⟨rfl, rfl, hsync, ⟨[], by simp, by simp⟩, by simp, by simp⟩
  | cons m rest ih =>
    cases m with
    | bad => simp [handleResourcesLoop] at hres
    | ok o0 =>
      cases hg : st.getObj (keyOf { o0 with ns := nsName }) with
      | none =>
        have hsync1 : lookupClass (createObj st (keyOf { o0 with ns := nsName }) o0.payload)
            nc.name = some nc := by simpa using hsync
        obtain ⟨nc1, hok, hsyncout⟩ := ledgerStep_ok
          (createObj st (keyOf { o0 with ns := nsName }) o0.payload) nc
          o0.name o0.apiVersion o0.kind hsync1
        rcases hls : ledgerStep (createObj st (keyOf { o0 with ns := nsName }) o0.payload) nc
            o0.name o0.apiVersion o0.kind with ⟨lops, st2, r⟩
        rw [hls] at hok hsyncout
        simp only at hok hsyncout
        subst hok
        have hframe := ledgerStep_frame (createObj st (keyOf { o0 with ns := nsName }) o0.payload)
          nc o0.name o0.apiVersion o0.kind
        rw [hls] at hframe
        obtain ⟨hfn, hfo, hfm, hfc, hfops, hfok⟩ := hframe
        obtain ⟨hname, hspec, ⟨ext1, hext1, hext1e⟩, hmem1⟩ := hfok nc1 rfl
        rw [hrl_step_none nsName o0 rest st nc hg lops st2 nc1 hls] at hres ⊢
        simp only at hres
        have hsync2 : lookupClass st2 nc1.name = some nc1 := hname ▸ hsyncout
        obtain ⟨ok1, ok2, ok3, ⟨ext2, hext2, hext2e⟩, ok5, ok6⟩ := ih st2 nc1 hsync2 hres
        obtain ⟨fr1, fr2, fr3, fr4, fr5, fr6⟩ := handleResourcesLoop_frame nsName rest st2 nc1
        refine ⟨ok1.trans hname, ok2.trans hspec, ?_, ?_, ?_, ?_⟩
        · rw [← hname]
          exact ok3
        · refine ⟨ext1 ++ ext2, by rw [hext2, hext1, List.append_assoc], ?_⟩
          intro e he
          rcases List.mem_append.mp he with h | h
          · exact ⟨o0, by simp, hext1e e h⟩
          · obtain ⟨o, ho, hoe⟩ := hext2e e h
            exact ⟨o, by simp [ho], hoe⟩
        · intro o ho
          rcases List.mem_cons.mp ho with h | h
          · have h0 : o0 = o := by injection h.symm
            subst h0
            constructor
            · refine fr4 _ ?_
              have h1 : ((createObj st (keyOf { o0 with ns := nsName }) o0.payload).getObj
                  (keyOf { o0 with ns := nsName })).isSome := by
                simp [createObj, Store.getObj, lookupObj]
              simp only [Store.getObj] at h1 ⊢
              rw [hfo]
              exact h1
            · rw [hext2]
              exact List.mem_append_left _ hmem1
          · exact ok5 o h
        · simp only [List.all_cons, Bool.and_eq_true]
          exact ⟨by simp [isOkM], ok6⟩
      | some live =>
        have hsync1 : lookupClass (updateObj st (keyOf { o0 with ns := nsName }) live)
            nc.name = some nc := by simpa using hsync
        obtain ⟨nc1, hok, hsyncout⟩ := ledgerStep_ok
          (updateObj st (keyOf { o0 with ns := nsName }) live) nc
          o0.name o0.apiVersion o0.kind hsync1
        rcases hls : ledgerStep (updateObj st (keyOf { o0 with ns := nsName }) live) nc
            o0.name o0.apiVersion o0.kind with ⟨lops, st2, r⟩
        rw [hls] at hok hsyncout
        simp only at hok hsyncout
        subst hok
        have hframe := ledgerStep_frame (updateObj st (keyOf { o0 with ns := nsName }) live)
          nc o0.name o0.apiVersion o0.kind
        rw [hls] at hframe
        obtain ⟨hfn, hfo, hfm, hfc, hfops, hfok⟩ := hframe
        obtain ⟨hname, hspec, ⟨ext1, hext1, hext1e⟩, hmem1⟩ := hfok nc1 rfl
        rw [hrl_step_some nsName o0 rest st nc live hg lops st2 nc1 hls] at hres ⊢
        simp only at hres
        have hsync2 : lookupClass st2 nc1.name = some nc1 := hname ▸ hsyncout
        obtain ⟨ok1, ok2, ok3, ⟨ext2, hext2, hext2e⟩, ok5, ok6⟩ := ih st2 nc1 hsync2 hres
        obtain ⟨fr1, fr2, fr3, fr4, fr5, fr6⟩ := handleResourcesLoop_frame nsName rest st2 nc1
        refine ⟨ok1.trans hname, ok2.trans hspec, ?_, ?_, ?_, ?_⟩
        · rw [← hname]
          exact ok3
        · refine ⟨ext1 ++ ext2, by rw [hext2, hext1, List.append_assoc], ?_⟩
          intro e he
          rcases List.mem_append.mp he with h | h
          · exact ⟨o0, by simp, hext1e e h⟩
          · obtain ⟨o, ho, hoe⟩ := hext2e e h
            exact ⟨o, by simp [ho], hoe⟩
        · intro o ho
          rcases List.mem_cons.mp ho with h | h
          · have h0 : o0 = o := by injection h.symm
            subst h0
            constructor
            · refine fr4 _ ?_
              have h1 : ((updateObj st (keyOf { o0 with ns := nsName }) live).getObj
                  (keyOf { o0 with ns := nsName })).isSome :=
                getObj_isSome_updateObj st _ _ _ (by simp [hg])
              simp only [Store.getObj] at h1 ⊢
              rw [hfo]
              exact h1
            · rw [hext2]
              exact List.mem_append_left _ hmem1
          · exact ok5 o h
        · simp only [List.all_cons, Bool.and_eq_true]
          exact ⟨by simp [isOkM], ok6⟩

/-- On a store where every declared manifest already has a live object
and a ledger entry, the convergence loop is a no-op: the store is
returned unchanged, the in-memory class survives unchanged, and the
trace holds only reads and effect-free updates. -/
theorem handleResourcesLoop_fix (nsName : String) (rs : List RawManifest)
    (st : Store) (nc : NamespaceClass)
    (hall : rs.all isOkM = true)
    (hobj : ∀ o, RawManifest.ok o ∈ rs → (st.getObj (keyOf { o with ns := nsName })).isSome)
    (htr : ∀ o, RawManifest.ok o ∈ rs →
      (⟨o.kind, o.name, o.apiVersion⟩ : ResourceStatus) ∈ nc.status.resources) :
    (handleResourcesLoop nsName rs st nc).2.1 = st ∧
    (handleResourcesLoop nsName rs st nc).2.2 = .ok nc ∧
    (∀ op ∈ (handleResourcesLoop nsName rs st nc).1, op.isGet = true ∨ op.isUpdate = true) := by
  induction rs generalizing st nc with
  | nil => simp [handleResourcesLoop]
  | cons m rest ih =>
    cases m with
    | bad =>
      simp only [List.all_cons, Bool.and_eq_true] at hall
      simp [isOkM] at hall
    | ok o0 =>
      simp only [List.all_cons, Bool.and_eq_true] at hall
      have hs := hobj o0 (by simp)
      cases hg : st.getObj (keyOf { o0 with ns := nsName }) with
      | none => rw [hg] at hs; simp at hs
      | some live =>
        have hupd : updateObj st (keyOf { o0 with ns := nsName }) live = st := by
          simp only [updateObj]
          rw [updateA_eq_of_lookup _ _ _ hg]
        have hex : resourceExistsInNamespaceClassStatus o0.name o0.apiVersion o0.kind
            nc.status.resources = true :=
          (existsInStatus_iff_mem _ _ _ _).mpr (htr o0 (by simp))
        have hls : ledgerStep (updateObj st (keyOf { o0 with ns := nsName }) live) nc
            o0.name o0.apiVersion o0.kind = ([], updateObj st (keyOf { o0 with ns := nsName }) live,
              .ok nc) := by
          simp [ledgerStep, hex]
        rw [hrl_step_some nsName o0 rest st nc live hg [] st nc (by rw [hls]; rw [hupd])]
        obtain ⟨ih1, ih2, ih3⟩ := ih st nc hall.2
          (fun o ho => hobj o (by simp [ho])) (fun o ho => htr o (by simp [ho]))
        refine ⟨ih1, ih2, ?_⟩
        intro op hop
        rcases List.mem_cons.mp hop with h | hop2
        · subst h; simp [Op.isGet]
        rcases List.mem_cons.mp hop2 with h | hop3
        · subst h; simp [Op.isUpdate]
        exact ih3 op (by simpa using hop3)

/-- Effects of the class-change sweep loop: classes and namespaces are
untouched, the trace holds only reads and deletes, objects whose
group-version-kind the new class still declares are untouched, absent
objects stay absent, and — when the sweep completes — every old-class
manifest whose group-version-kind the new class does not declare has no
live object left at its address. -/
theorem handleNamespaceClassChangeLoop_effects (nsName : String) (nc : NamespaceClass)
    (rs : List RawManifest) (st : Store) :
    (handleNamespaceClassChangeLoop nsName nc rs st).2.1.classes = st.classes ∧
    (handleNamespaceClassChangeLoop nsName nc rs st).2.1.namespaces = st.namespaces ∧
    (∀ op ∈ (handleNamespaceClassChangeLoop nsName nc rs st).1,
      op.isGet = true ∨ op.isDelete = true) ∧
    (∀ k : ObjKey, resourceExistsInNamespaceClass k.apiVersion k.kind nc.spec.resources = true →
      (handleNamespaceClassChangeLoop nsName nc rs st).2.1.getObj k = st.getObj k) ∧
    (∀ k, st.getObj k = none → (handleNamespaceClassChangeLoop nsName nc rs st).2.1.getObj k = none) ∧
    ((handleNamespaceClassChangeLoop nsName nc rs st).2.2 = .ok () →
      ∀ o, RawManifest.ok o ∈ rs →
        resourceExistsInNamespaceClass o.apiVersion o.kind nc.spec.resources = false →
        (handleNamespaceClassChangeLoop nsName nc rs st).2.1.getObj
          (keyOf { o with ns := nsName }) = none) := by
  induction rs generalizing st with
  | nil => simp [handleNamespaceClassChangeLoop]
  | cons m rest ih =>
    cases m with
    | bad =>
      refine ⟨by simp [handleNamespaceClassChangeLoop], by simp [handleNamespaceClassChangeLoop],
        by simp [handleNamespaceClassChangeLoop], fun k _ => by simp [handleNamespaceClassChangeLoop],
        fun k h => by simpa [handleNamespaceClassChangeLoop] using h, ?_⟩
      intro hok
      simp [handleNamespaceClassChangeLoop] at hok
    | ok o0 =>
      cases hg : st.getObj (keyOf { o0 with ns := nsName }) with
      | none =>
        have heq : handleNamespaceClassChangeLoop nsName nc (.ok o0 :: rest) st =
            (.getOp (keyOf { o0 with ns := nsName }) ::
              (handleNamespaceClassChangeLoop nsName nc rest st).1,
             (handleNamespaceClassChangeLoop nsName nc rest st).2.1,
             (handleNamespaceClassChangeLoop nsName nc rest st).2.2) := by
          simp [handleNamespaceClassChangeLoop, hg]
        obtain ⟨ih1, ih2, ih3, ih4, ih5, ih6⟩ := ih st
        rw [heq]
        refine ⟨ih1, ih2, ?_, fun k hk => ih4 k hk, fun k hk => ih5 k hk, ?_⟩
        · intro op hop
          rcases List.mem_cons.mp hop with h | h
          · subst h; simp [Op.isGet]
          · exact ih3 op h
        · intro hok o ho hchk
          rcases List.mem_cons.mp ho with h | h
          · have h0 : o0 = o := by injection h.symm
            subst h0
            exact ih5 _ hg
          · exact ih6 hok o h hchk
      | some live =>
        by_cases hchk0 : resourceExistsInNamespaceClass (keyOf { o0 with ns := nsName }).apiVersion
            (keyOf { o0 with ns := nsName }).kind nc.spec.resources = true
        · have heq : handleNamespaceClassChangeLoop nsName nc (.ok o0 :: rest) st =
              (.getOp (keyOf { o0 with ns := nsName }) ::
                (handleNamespaceClassChangeLoop nsName nc rest st).1,
               (handleNamespaceClassChangeLoop nsName nc rest st).2.1,
               (handleNamespaceClassChangeLoop nsName nc rest st).2.2) := by
            simp [handleNamespaceClassChangeLoop, hg, hchk0]
          obtain ⟨ih1, ih2, ih3, ih4, ih5, ih6⟩ := ih st
          rw [heq]
          refine ⟨ih1, ih2, ?_, fun k hk => ih4 k hk, fun k hk => ih5 k hk, ?_⟩
          · intro op hop
            rcases List.mem_cons.mp hop with h | h
            · subst h; simp [Op.isGet]
            · exact ih3 op h
          · intro hok o ho hchk
            rcases List.mem_cons.mp ho with h | h
            · have h0 : o0 = o := by injection h.symm
              subst h0
              simp only [keyOf] at hchk0
              rw [hchk] at hchk0
              simp at hchk0
            · exact ih6 hok o h hchk
        · have hchk0' : resourceExistsInNamespaceClass o0.apiVersion o0.kind
              nc.spec.resources = false := by
            simpa [keyOf] using hchk0
          have heq : handleNamespaceClassChangeLoop nsName nc (.ok o0 :: rest) st =
              (.getOp (keyOf { o0 with ns := nsName }) ::
                 .deleteOp (keyOf { o0 with ns := nsName }) ::
                (handleNamespaceClassChangeLoop nsName nc rest
                  (deleteObj st (keyOf { o0 with ns := nsName }))).1,
               (handleNamespaceClassChangeLoop nsName nc rest
                 (deleteObj st (keyOf { o0 with ns := nsName }))).2.1,
               (handleNamespaceClassChangeLoop nsName nc rest
                 (deleteObj st (keyOf { o0 with ns := nsName }))).2.2) := by
            simp [handleNamespaceClassChangeLoop, hg, hchk0]
          obtain ⟨ih1, ih2, ih3, ih4, ih5, ih6⟩ :=
            ih (deleteObj st (keyOf { o0 with ns := nsName }))
          rw [heq]
          refine ⟨by simpa using ih1, by simpa using ih2, ?_, ?_, ?_, ?_⟩
          · intro op hop
            rcases List.mem_cons.mp hop with h | hop2
            · subst h; simp [Op.isGet]
            rcases List.mem_cons.mp hop2 with h | h
            · subst h; simp [Op.isDelete]
            · exact ih3 op h
          · intro k hk
            have hne : k ≠ keyOf { o0 with ns := nsName } := by
              intro hkk
              subst hkk
              simp only [keyOf] at hchk0
              exact hchk0 hk
            rw [ih4 k hk]
            simp only [deleteObj, Store.getObj]
            exact lookupObj_removeA_ne _ _ _ hne
          · intro k hk
            refine ih5 k ?_
            by_cases hkk : k = keyOf { o0 with ns := nsName }
            · subst hkk
              simp [deleteObj, Store.getObj, lookupObj_removeA_self]
            · simp only [deleteObj, Store.getObj]
              rw [lookupObj_removeA_ne _ _ _ hkk]
              exact hk
          · intro hok o ho hchk
            rcases List.mem_cons.mp ho with h | h
            · have h0 : o0 = o := by injection h.symm
              subst h0
              refine ih5 _ ?_
              simp [deleteObj, Store.getObj, lookupObj_removeA_self]
            · exact ih6 hok o h hchk

/-! ## List helpers for the in-place ledger removal -/

theorem mem_eraseIdx_of_mem_of_ne {α : Type} {l : List α} {i : Nat} {d a : α}
    (h : a ∈ l) (hne : a ≠ l.getD i d) : a ∈ l.eraseIdx i := by
  induction l generalizing i with
  | nil => simp at h
  | cons x rest ih =>
    cases i with
    | zero =>
      rcases List.mem_cons.mp h with hx | hx
      · exact absurd hx hne
      · simpa [List.eraseIdx] using hx
    | succ j =>
      rcases List.mem_cons.mp h with hx | hx
      · subst hx
        simp [List.eraseIdx]
      · simp only [List.eraseIdx, List.mem_cons]
        exact Or.inr (ih hx hne)

theorem getD_take_of_lt {α : Type} (l : List α) (i n : Nat) (d : α) (h : i < n) :
    (l.take n).getD i d = l.getD i d := by
  rcases Nat.lt_or_ge i l.length with hl | hl
  · have h1 : i < (l.take n).length := by simp [hl, h]
    rw [List.getD_eq_getElem _ d h1, List.getD_eq_getElem l d hl]
    simp
  · have h1 : (l.take n).length ≤ i := le_trans (by simp) hl
    rw [List.getD_eq_default _ d h1, List.getD_eq_default l d hl]

theorem getD_mem_of_lt {α : Type} (l : List α) (i : Nat) (d : α) (h : i < l.length) :
    l.getD i d ∈ l := by
  rw [List.getD_eq_getElem l d h]
  exact List.getElem_mem h

theorem removeShift_eq (arr : List ResourceStatus) (i len : Nat) (hi : i < len)
    (_hl : len ≤ arr.length) :
    removeShift arr i len = (arr.take len).eraseIdx i ++ arr.drop (len - 1) := by
  rw [removeShift, List.eraseIdx_eq_take_drop_succ, List.take_take]
  have hmin : min i len = i := Nat.min_eq_left (Nat.le_of_lt hi)
  rw [hmin, List.append_assoc]

theorem removeShift_length (arr : List ResourceStatus) (i len : Nat) (hi : i < len)
    (hl : len ≤ arr.length) : (removeShift arr i len).length = arr.length := by
  rw [removeShift_eq arr i len hi hl]
  have h1 : i < (arr.take len).length := by
    simp only [List.length_take]
    exact lt_min hi (lt_of_lt_of_le hi hl)
  simp only [List.length_append, List.length_eraseIdx, List.length_take, List.length_drop]
  have h2 : min len arr.length = len := Nat.min_eq_left hl
  simp only [List.length_take] at h1
  rw [if_pos h1, h2]
  omega

theorem removeShift_take (arr : List ResourceStatus) (i len : Nat) (hi : i < len)
    (hl : len ≤ arr.length) :
    (removeShift arr i len).take (len - 1) = (arr.take len).eraseIdx i := by
  rw [removeShift_eq arr i len hi hl]
  refine List.take_left' ?_
  have h1 : i < (arr.take len).length := by
    simp only [List.length_take]
    exact lt_min hi (lt_of_lt_of_le hi hl)
  rw [List.length_eraseIdx]
  simp only [List.length_take] at h1 ⊢
  rw [if_pos h1]
  rw [Nat.min_eq_left hl]

/-! ## Effects of the orphan sweep -/

/-- Effects of the inner removal loop of `handleResourcesDeletion`, when
the in-memory window agrees with the stored class status: the backing
array keeps its length, the window only shrinks and loses nothing but
copies of the matched triple, managed objects and namespaces are
untouched, other classes are untouched, the stored status stays in sync
with the window, and the trace holds only status updates. -/
theorem sweepInnerLoop_effects (className : String) (t : ResourceStatus)
    (sp : NamespaceClassSpec) (r : Nat) :
    ∀ (j : Nat) (arr : List ResourceStatus) (curLen : Nat) (st : Store),
    lookupClass st className = some ⟨className, sp, ⟨arr.take curLen⟩⟩ →
    curLen ≤ arr.length →
    (sweepInnerLoop className t r j arr curLen st).2.1.length = arr.length ∧
    (sweepInnerLoop className t r j arr curLen st).2.2.1 ≤ curLen ∧
    (∀ e, e ∈ arr.take curLen → e ≠ t →
      e ∈ (sweepInnerLoop className t r j arr curLen st).2.1.take
        (sweepInnerLoop className t r j arr curLen st).2.2.1) ∧
    (sweepInnerLoop className t r j arr curLen st).2.2.2.1.objects = st.objects ∧
    (sweepInnerLoop className t r j arr curLen st).2.2.2.1.namespaces = st.namespaces ∧
    (∀ x, x ≠ className →
      lookupClass (sweepInnerLoop className t r j arr curLen st).2.2.2.1 x = lookupClass st x) ∧
    (∀ x, ((lookupClass (sweepInnerLoop className t r j arr curLen st).2.2.2.1 x).map
      fun c => (c.name, c.spec)) = ((lookupClass st x).map fun c => (c.name, c.spec))) ∧
    lookupClass (sweepInnerLoop className t r j arr curLen st).2.2.2.1 className =
      some ⟨className, sp, ⟨(sweepInnerLoop className t r j arr curLen st).2.1.take
        (sweepInnerLoop className t r j arr curLen st).2.2.1⟩⟩ ∧
    (∀ op ∈ (sweepInnerLoop className t r j arr curLen st).1, op.isStatusUpdate = true) ∧
    (∀ e, e ∈ (sweepInnerLoop className t r j arr curLen st).2.1.take
      (sweepInnerLoop className t r j arr curLen st).2.2.1 → e ∈ arr.take curLen) := by
  induction r with
  | zero =>
    intro j arr curLen st hsync hcl
    exact ⟨rfl, le_refl _, fun e he _ => he, rfl, rfl, fun x _ => rfl, fun x => rfl, hsync,
      by simp [sweepInnerLoop], fun e he => he⟩
  | succ r ih =>
    intro j arr curLen st hsync hcl
    by_cases hm : (arr.getD j ⟨"", "", ""⟩).name = t.name ∧
        (arr.getD j ⟨"", "", ""⟩).apiVersion = t.apiVersion ∧
        (arr.getD j ⟨"", "", ""⟩).kind = t.kind
    · have ht : arr.getD j ⟨"", "", ""⟩ = t := by
        obtain ⟨h1, h2, h3⟩ := hm
        cases harr : arr.getD j ⟨"", "", ""⟩
        cases t
        rw [harr] at h1 h2 h3
        simp_all
      by_cases hj : j < curLen
      · -- a real removal: shift the backing array in place and persist
        set arr1 := removeShift arr j curLen with harr1
        set w1 := arr1.take (curLen - 1) with hw1
        set st1 : Store := { st with classes := putClasses st.classes className w1 } with hst1
        have hf : (findClass st.classes className).isSome := by
          rw [lookupClass] at hsync
          simp [hsync]
        have hput : putClassStatusE st className w1 = .ok st1 := by
          simp [putClassStatusE, hf, hst1]
        have heq : sweepInnerLoop className t (r + 1) j arr curLen st =
            (Op.statusUpdate className w1 ::
              (sweepInnerLoop className t r (j + 1) arr1 (curLen - 1) st1).1,
             (sweepInnerLoop className t r (j + 1) arr1 (curLen - 1) st1).2) := by
          simp only [sweepInnerLoop]
          rw [if_pos hm, if_pos hj, ← harr1, ← hw1, hput]
        have hsync1 : lookupClass st1 className =
            some ⟨className, sp, ⟨arr1.take (curLen - 1)⟩⟩ := by
          rw [hst1, lookupClass]
          rw [lookupClass] at hsync
          simpa [← hw1] using findClass_putClasses_self st.classes className w1 _ hsync
        have hcl1 : curLen - 1 ≤ arr1.length := by
          rw [harr1, removeShift_length arr j curLen hj hcl]
          omega
        obtain ⟨in1, in2, in3, in4, in5, in6, in7, in8, in9, in10⟩ :=
          ih (j + 1) arr1 (curLen - 1) st1 hsync1 hcl1
        rw [heq]
        refine ⟨?_, ?_, ?_, ?_, ?_, ?_, ?_, ?_, ?_, ?_⟩
        · rw [in1, harr1, removeShift_length arr j curLen hj hcl]
        · exact le_trans in2 (Nat.sub_le _ _)
        · intro e he het
          refine in3 e ?_ het
          rw [harr1, removeShift_take arr j curLen hj hcl]
          refine mem_eraseIdx_of_mem_of_ne (d := ⟨"", "", ""⟩) he ?_
          rw [getD_take_of_lt arr j curLen ⟨"", "", ""⟩ hj, ht]
          exact het
        · rw [in4, hst1]
        · rw [in5, hst1]
        · intro x hx
          rw [in6 x hx, hst1]
          show findClass (putClasses st.classes className w1) x = lookupClass st x
          rw [findClass_putClasses_ne st.classes className w1 x hx]
          rfl
        · intro x
          rw [in7 x, hst1]
          show ((findClass (putClasses st.classes className w1) x).map
            fun c => (c.name, c.spec)) = ((lookupClass st x).map fun c => (c.name, c.spec))
          rw [findClass_putClasses_map st.classes className w1 x]
          rfl
        · exact in8
        · intro op hop
          rcases List.mem_cons.mp hop with h | h
          · subst h; simp [Op.isStatusUpdate]
          · exact in9 op h
        · intro e he
          have h1 := in10 e he
          rw [harr1, removeShift_take arr j curLen hj hcl] at h1
          exact List.mem_of_mem_eraseIdx h1
      · -- a stale duplicate matched at or beyond the current length:
        -- the source would panic slicing past the end
        have heq : sweepInnerLoop className t (r + 1) j arr curLen st =
            ([], arr, curLen, st, .error .sliceBounds) := by
          simp only [sweepInnerLoop]
          rw [if_pos hm, if_neg hj]
        rw [heq]
        exact ⟨rfl, le_refl _, fun e he _ => he, rfl, rfl, fun x _ => rfl, fun x => rfl, hsync,
          by simp, fun e he => he⟩
    · have heq : sweepInnerLoop className t (r + 1) j arr curLen st =
          sweepInnerLoop className t r (j + 1) arr curLen st := by
        simp only [sweepInnerLoop]
        rw [if_neg hm]
      rw [heq]
      exact ih (j + 1) arr curLen st hsync hcl

/-- Effects of the outer loop of `handleResourcesDeletion`, when the
window agrees with the stored class status: namespaces and other
classes are untouched, the stored status stays in sync with the window,
managed objects whose group-version-kind the spec declares are
untouched, absent objects stay absent, window entries with a declared
group-version-kind are never dropped from the ledger, and the trace
holds only deletes and status updates. -/
theorem sweepOuterLoop_effects (nsName className : String) (spec0 : List RawManifest)
    (sp : NamespaceClassSpec) (r : Nat) :
    ∀ (k : Nat) (arr : List ResourceStatus) (curLen : Nat) (st : Store),
    lookupClass st className = some ⟨className, sp, ⟨arr.take curLen⟩⟩ →
    curLen ≤ arr.length →
    (sweepOuterLoop nsName className spec0 r k arr curLen st).2.2.2.1.namespaces =
      st.namespaces ∧
    (∀ x, x ≠ className →
      lookupClass (sweepOuterLoop nsName className spec0 r k arr curLen st).2.2.2.1 x =
        lookupClass st x) ∧
    (∀ x, ((lookupClass (sweepOuterLoop nsName className spec0 r k arr curLen st).2.2.2.1 x).map
      fun c => (c.name, c.spec)) = ((lookupClass st x).map fun c => (c.name, c.spec))) ∧
    lookupClass (sweepOuterLoop nsName className spec0 r k arr curLen st).2.2.2.1 className =
      some ⟨className, sp, ⟨(sweepOuterLoop nsName className spec0 r k arr curLen st).2.1.take
        (sweepOuterLoop nsName className spec0 r k arr curLen st).2.2.1⟩⟩ ∧
    (sweepOuterLoop nsName className spec0 r k arr curLen st).2.1.length = arr.length ∧
    (sweepOuterLoop nsName className spec0 r k arr curLen st).2.2.1 ≤ curLen ∧
    (∀ kk : ObjKey, resourceExistsInNamespaceClass kk.apiVersion kk.kind spec0 = true →
      (sweepOuterLoop nsName className spec0 r k arr curLen st).2.2.2.1.getObj kk =
        st.getObj kk) ∧
    (∀ kk, st.getObj kk = none →
      (sweepOuterLoop nsName className spec0 r k arr curLen st).2.2.2.1.getObj kk = none) ∧
    (∀ e, e ∈ arr.take curLen →
      resourceExistsInNamespaceClass e.apiVersion e.kind spec0 = true →
      e ∈ (sweepOuterLoop nsName className spec0 r k arr curLen st).2.1.take
        (sweepOuterLoop nsName className spec0 r k arr curLen st).2.2.1) ∧
    (∀ op ∈ (sweepOuterLoop nsName className spec0 r k arr curLen st).1,
      op.isDelete = true ∨ op.isStatusUpdate = true) ∧
    (∀ e, e ∈ (sweepOuterLoop nsName className spec0 r k arr curLen st).2.1.take
      (sweepOuterLoop nsName className spec0 r k arr curLen st).2.2.1 →
      e ∈ arr.take curLen) := by
  induction r with
  | zero =>
    intro k arr curLen st hsync hcl
    exact ⟨rfl, fun x _ => rfl, fun x => rfl, hsync, rfl, le_refl _,
      fun kk _ => rfl, fun kk h => h, fun e he _ => he, by simp [sweepOuterLoop],
      fun e he => he⟩
  | succ r ih =>
    intro k arr curLen st hsync hcl
    by_cases hchk : resourceExistsInNamespaceClass (arr.getD k ⟨"", "", ""⟩).apiVersion
        (arr.getD k ⟨"", "", ""⟩).kind spec0 = true
    · have heq : sweepOuterLoop nsName className spec0 (r + 1) k arr curLen st =
          sweepOuterLoop nsName className spec0 r (k + 1) arr curLen st := by
        simp only [sweepOuterLoop]
        rw [if_pos hchk]
      rw [heq]
      exact ih (k + 1) arr curLen st hsync hcl
    · rw [Bool.not_eq_true] at hchk
      set res := arr.getD k ⟨"", "", ""⟩ with hres0
      set key : ObjKey := ⟨res.apiVersion, res.kind, res.name, nsName⟩ with hkey
      have hkne : ∀ kk : ObjKey,
          resourceExistsInNamespaceClass kk.apiVersion kk.kind spec0 = true → kk ≠ key := by
        intro kk hkk heqk
        rw [hkey] at heqk
        have h1 : kk.apiVersion = res.apiVersion := by rw [heqk]
        have h2 : kk.kind = res.kind := by rw [heqk]
        rw [h1, h2, hchk] at hkk
        simp at hkk
      cases hg : st.getObj key with
      | none =>
        have heq : sweepOuterLoop nsName className spec0 (r + 1) k arr curLen st =
            ([.deleteOp key], arr, curLen, st, .error .notFound) := by
          simp only [sweepOuterLoop]
          rw [if_neg (by rw [hchk]; simp), ← hres0, ← hkey, hg]
        rw [heq]
        exact ⟨rfl, fun x _ => rfl, fun x => rfl, hsync, rfl, le_refl _,
          fun kk _ => rfl, fun kk h => h, fun e he _ => he, by simp [Op.isDelete],
          fun e he => he⟩
      | some v =>
        have hsync1 : lookupClass (deleteObj st key) className =
            some ⟨className, sp, ⟨arr.take curLen⟩⟩ := by simpa using hsync
        obtain ⟨in1, in2, in3, in4, in5, in6, in7, in8, in9, in10⟩ :=
          sweepInnerLoop_effects className res sp curLen 0 arr curLen
            (deleteObj st key) hsync1 hcl
        have hobjpres : ∀ kk : ObjKey,
            resourceExistsInNamespaceClass kk.apiVersion kk.kind spec0 = true →
            (sweepInnerLoop className res curLen 0 arr curLen
              (deleteObj st key)).2.2.2.1.getObj kk = st.getObj kk := by
          intro kk hkk
          simp only [Store.getObj]
          rw [in4]
          simp only [deleteObj]
          exact lookupObj_removeA_ne st.objects key kk (hkne kk hkk)
        have hnonepres : ∀ kk : ObjKey, st.getObj kk = none →
            (sweepInnerLoop className res curLen 0 arr curLen
              (deleteObj st key)).2.2.2.1.getObj kk = none := by
          intro kk hkk
          simp only [Store.getObj]
          rw [in4]
          simp only [deleteObj]
          by_cases hk : kk = key
          · subst hk
            exact lookupObj_removeA_self st.objects key
          · rw [lookupObj_removeA_ne st.objects key kk hk]
            exact hkk
        have hwinpres : ∀ e, e ∈ arr.take curLen →
            resourceExistsInNamespaceClass e.apiVersion e.kind spec0 = true →
            e ∈ (sweepInnerLoop className res curLen 0 arr curLen
              (deleteObj st key)).2.1.take
              (sweepInnerLoop className res curLen 0 arr curLen (deleteObj st key)).2.2.1 := by
          intro e he hke
          refine in3 e he ?_
          intro hee
          rw [hee, hchk] at hke
          simp at hke
        cases hinres : (sweepInnerLoop className res curLen 0 arr curLen
            (deleteObj st key)).2.2.2.2 with
        | error e =>
          have heq : sweepOuterLoop nsName className spec0 (r + 1) k arr curLen st =
              (.deleteOp key :: (sweepInnerLoop className res curLen 0 arr curLen
                 (deleteObj st key)).1,
               (sweepInnerLoop className res curLen 0 arr curLen (deleteObj st key)).2.1,
               (sweepInnerLoop className res curLen 0 arr curLen (deleteObj st key)).2.2.1,
               (sweepInnerLoop className res curLen 0 arr curLen (deleteObj st key)).2.2.2.1,
               .error e) := by
            simp only [sweepOuterLoop]
            rw [if_neg (by rw [hchk]; simp), ← hres0, ← hkey, hg, hinres]
          rw [heq]
          refine ⟨by rw [in5]; simp, ?_, ?_, in8, in1, in2, hobjpres, hnonepres, hwinpres, ?_,
            in10⟩
          · intro x hx
            rw [in6 x hx]
            simp
          · intro x
            rw [in7 x]
            simp
          · intro op hop
            rcases List.mem_cons.mp hop with h | h
            · subst h; simp [Op.isDelete]
            · exact Or.inr (in9 op h)
        | ok u =>
          have hcl1 : (sweepInnerLoop className res curLen 0 arr curLen
              (deleteObj st key)).2.2.1 ≤ (sweepInnerLoop className res curLen 0 arr curLen
              (deleteObj st key)).2.1.length := by
            rw [in1]
            exact le_trans in2 hcl
          obtain ⟨ou1, ou2, ou3, ou4, ou5, ou6, ou7, ou8, ou9, ou10, ou11⟩ :=
            ih (k + 1) (sweepInnerLoop className res curLen 0 arr curLen
              (deleteObj st key)).2.1
              (sweepInnerLoop className res curLen 0 arr curLen (deleteObj st key)).2.2.1
              (sweepInnerLoop className res curLen 0 arr curLen (deleteObj st key)).2.2.2.1
              in8 hcl1
          have heq : sweepOuterLoop nsName className spec0 (r + 1) k arr curLen st =
              (.deleteOp key :: (sweepInnerLoop className res curLen 0 arr curLen
                 (deleteObj st key)).1 ++
                 (sweepOuterLoop nsName className spec0 r (k + 1)
                   (sweepInnerLoop className res curLen 0 arr curLen (deleteObj st key)).2.1
                   (sweepInnerLoop className res curLen 0 arr curLen (deleteObj st key)).2.2.1
                   (sweepInnerLoop className res curLen 0 arr curLen
                     (deleteObj st key)).2.2.2.1).1,
               (sweepOuterLoop nsName className spec0 r (k + 1)
                 (sweepInnerLoop className res curLen 0 arr curLen (deleteObj st key)).2.1
                 (sweepInnerLoop className res curLen 0 arr curLen (deleteObj st key)).2.2.1
                 (sweepInnerLoop className res curLen 0 arr curLen
                   (deleteObj st key)).2.2.2.1).2) := by
            simp only [sweepOuterLoop]
            rw [if_neg (by rw [hchk]; simp), ← hres0, ← hkey, hg, hinres]
          rw [heq]
          refine ⟨?_, ?_, ?_, ou4, ?_, ?_, ?_, ?_, ?_, ?_, ?_⟩
          · rw [ou1, in5]
            simp
          · intro x hx
            rw [ou2 x hx, in6 x hx]
            simp
          · intro x
            rw [ou3 x, in7 x]
            simp
          · rw [ou5, in1]
          · exact le_trans ou6 in2
          · intro kk hkk
            rw [ou7 kk hkk]
            exact hobjpres kk hkk
          · intro kk hkk
            exact ou8 kk (hnonepres kk hkk)
          · intro e he hke
            exact ou9 e (hwinpres e he hke) hke
          · intro op hop
            rcases List.mem_cons.mp hop with h | hop2
            · subst h; simp [Op.isDelete]
            rcases List.mem_append.mp hop2 with h | h
            · exact Or.inr (in9 op h)
            · exact ou10 op h
          · intro e he
            exact in10 e (ou11 e he)

/-- When every cell of the backing array still has a declared
group-version-kind, the outer sweep loop does nothing at all. -/
theorem sweepOuterLoop_clean (nsName className : String) (spec0 : List RawManifest) (r : Nat) :
    ∀ (k : Nat) (arr : List ResourceStatus) (curLen : Nat) (st : Store),
    (∀ e ∈ arr, resourceExistsInNamespaceClass e.apiVersion e.kind spec0 = true) →
    k + r ≤ arr.length →
    sweepOuterLoop nsName className spec0 r k arr curLen st = ([], arr, curLen, st, .ok ()) := by
  induction r with
  | zero =>
    intro k arr curLen st _ _
    rfl
  | succ r ih =>
    intro k arr curLen st hdecl hkr
    have hk : k < arr.length := by omega
    have hchk := hdecl (arr.getD k ⟨"", "", ""⟩) (getD_mem_of_lt arr k ⟨"", "", ""⟩ hk)
    have heq : sweepOuterLoop nsName className spec0 (r + 1) k arr curLen st =
        sweepOuterLoop nsName className spec0 r (k + 1) arr curLen st := by
      simp only [sweepOuterLoop]
      rw [if_pos hchk]
    rw [heq]
    exact ih (k + 1) arr curLen st hdecl (by omega)

/-- `handleResourcesDeletion` does nothing when the ledger holds no
orphan: every entry's group-version-kind is still declared. -/
theorem handleResourcesDeletion_clean (st : Store) (nsp : NsObj) (nc : NamespaceClass)
    (hdecl : ∀ e ∈ nc.status.resources,
      resourceExistsInNamespaceClass e.apiVersion e.kind nc.spec.resources = true) :
    handleResourcesDeletion st nsp nc = ([], st, .ok nc) := by
  simp only [handleResourcesDeletion]
  rw [sweepOuterLoop_clean nsp.name nc.name nc.spec.resources nc.status.resources.length 0
    nc.status.resources nc.status.resources.length st hdecl (by omega)]
  rw [List.take_length]
  rfl

/-- Effects of `handleResourcesDeletion` when the in-memory class agrees
with the stored one. -/
theorem handleResourcesDeletion_effects (st : Store) (nsp : NsObj) (nc : NamespaceClass)
    (hsync : lookupClass st nc.name = some nc) :
    (handleResourcesDeletion st nsp nc).2.1.namespaces = st.namespaces ∧
    (∀ x, x ≠ nc.name →
      lookupClass (handleResourcesDeletion st nsp nc).2.1 x = lookupClass st x) ∧
    (∀ x, ((lookupClass (handleResourcesDeletion st nsp nc).2.1 x).map
      fun c => (c.name, c.spec)) = ((lookupClass st x).map fun c => (c.name, c.spec))) ∧
    (∀ kk : ObjKey, resourceExistsInNamespaceClass kk.apiVersion kk.kind nc.spec.resources = true →
      (handleResourcesDeletion st nsp nc).2.1.getObj kk = st.getObj kk) ∧
    (∀ kk, st.getObj kk = none → (handleResourcesDeletion st nsp nc).2.1.getObj kk = none) ∧
    (∀ op ∈ (handleResourcesDeletion st nsp nc).1,
      op.isDelete = true ∨ op.isStatusUpdate = true) ∧
    (∀ nc', (handleResourcesDeletion st nsp nc).2.2 = .ok nc' →
      nc'.name = nc.name ∧ nc'.spec = nc.spec ∧
      lookupClass (handleResourcesDeletion st nsp nc).2.1 nc.name = some nc' ∧
      (∀ e ∈ nc.status.resources,
        resourceExistsInNamespaceClass e.apiVersion e.kind nc.spec.resources = true →
        e ∈ nc'.status.resources) ∧
      (∀ e, e ∈ nc'.status.resources → e ∈ nc.status.resources)) := by
  have hsync' : lookupClass st nc.name =
      some ⟨nc.name, nc.spec, ⟨nc.status.resources.take nc.status.resources.length⟩⟩ := by
    rw [List.take_length]
    exact hsync
  obtain ⟨ou1, ou2, ou3, ou4, ou5, ou6, ou7, ou8, ou9, ou10, ou11⟩ :=
    sweepOuterLoop_effects nsp.name nc.name nc.spec.resources nc.spec
      nc.status.resources.length 0 nc.status.resources nc.status.resources.length st
      hsync' (le_refl _)
  have hunf : handleResourcesDeletion st nsp nc =
      ((sweepOuterLoop nsp.name nc.name nc.spec.resources nc.status.resources.length 0
          nc.status.resources nc.status.resources.length st).1,
       (sweepOuterLoop nsp.name nc.name nc.spec.resources nc.status.resources.length 0
          nc.status.resources nc.status.resources.length st).2.2.2.1,
       (sweepOuterLoop nsp.name nc.name nc.spec.resources nc.status.resources.length 0
          nc.status.resources nc.status.resources.length st).2.2.2.2.map
         fun _ => { nc with status := ⟨(sweepOuterLoop nsp.name nc.name nc.spec.resources
            nc.status.resources.length 0 nc.status.resources
            nc.status.resources.length st).2.1.take
           (sweepOuterLoop nsp.name nc.name nc.spec.resources nc.status.resources.length 0
             nc.status.resources nc.status.resources.length st).2.2.1⟩ }) := rfl
  rw [hunf]
  refine ⟨ou1, ou2, ou3, ou7, ou8, ou10, ?_⟩
  intro nc' hok
  rcases hsw : (sweepOuterLoop nsp.name nc.name nc.spec.resources
      nc.status.resources.length 0 nc.status.resources nc.status.resources.length st).2.2.2.2
    with u | u
  · rw [hsw] at hok
    simp [Except.map] at hok
  · rw [hsw] at hok
    simp only [Except.map] at hok
    have hnc' : ({ nc with status := ⟨(sweepOuterLoop nsp.name nc.name nc.spec.resources
        nc.status.resources.length 0 nc.status.resources
        nc.status.resources.length st).2.1.take
        (sweepOuterLoop nsp.name nc.name nc.spec.resources nc.status.resources.length 0
          nc.status.resources nc.status.resources.length st).2.2.1⟩ } : NamespaceClass)
        = nc' := by
      cases hok
      rfl
    refine ⟨by rw [← hnc'], by rw [← hnc'], by rw [← hnc']; exact ou4, ?_, ?_⟩
    · intro e he hke
      rw [← hnc']
      exact ou9 e (by simpa using he) hke
    · intro e he
      rw [← hnc'] at he
      simpa using ou11 e he

/-! ## Effects of the annotation stage -/

/-- Effects of the tail of the annotation stage (namespace persist plus
orphan sweep), on the success path. -/
theorem handleNamespaceAnnotationsTail_effects (st : Store) (ns1 : NsObj) (nc : NamespaceClass)
    (hsync : lookupClass st nc.name = some nc)
    (hnspres : (findNs st.namespaces ns1.name).isSome)
    (p : NsObj × NamespaceClass)
    (hres : (handleNamespaceAnnotationsTail st ns1 nc).2.2 = .ok p) :
    p.1 = ns1 ∧
    lookupNs (handleNamespaceAnnotationsTail st ns1 nc).2.1 ns1.name = some ns1 ∧
    (∀ m, m ≠ ns1.name → lookupNs (handleNamespaceAnnotationsTail st ns1 nc).2.1 m =
      lookupNs st m) ∧
    p.2.name = nc.name ∧ p.2.spec = nc.spec ∧
    lookupClass (handleNamespaceAnnotationsTail st ns1 nc).2.1 nc.name = some p.2 ∧
    (∀ x, x ≠ nc.name → lookupClass (handleNamespaceAnnotationsTail st ns1 nc).2.1 x =
      lookupClass st x) ∧
    (∀ e ∈ nc.status.resources,
      resourceExistsInNamespaceClass e.apiVersion e.kind nc.spec.resources = true →
      e ∈ p.2.status.resources) ∧
    (∀ kk : ObjKey, resourceExistsInNamespaceClass kk.apiVersion kk.kind nc.spec.resources = true →
      (handleNamespaceAnnotationsTail st ns1 nc).2.1.getObj kk = st.getObj kk) ∧
    (∀ kk, st.getObj kk = none →
      (handleNamespaceAnnotationsTail st ns1 nc).2.1.getObj kk = none) ∧
    (∀ e, e ∈ p.2.status.resources → e ∈ nc.status.resources) := by
  have hput : putNsE st ns1 =
      .ok { st with namespaces := putNamespaces st.namespaces ns1 } := by
    simp [putNsE, hnspres]
  have hsyncN : lookupClass { st with namespaces := putNamespaces st.namespaces ns1 }
      nc.name = some nc := hsync
  obtain ⟨de1, de2, de3, de4, de5, de6, de7⟩ := handleResourcesDeletion_effects
    { st with namespaces := putNamespaces st.namespaces ns1 } ns1 nc hsyncN
  rcases hdel : handleResourcesDeletion { st with namespaces := putNamespaces st.namespaces ns1 }
      ns1 nc with ⟨dops, st2, dres⟩
  rw [hdel] at de1 de2 de3 de4 de5 de6 de7
  simp only at de1 de2 de3 de4 de5 de6 de7
  have heq : handleNamespaceAnnotationsTail st ns1 nc =
      (Op.nsUpdate ns1 :: dops, st2,
        match dres with
        | .error e => .error e
        | .ok nc1 => .ok (ns1, nc1)) := by
    simp only [handleNamespaceAnnotationsTail, hput, hdel]
    cases dres <;> rfl
  rw [heq] at hres ⊢
  cases dres with
  | error e => simp at hres
  | ok nc1 =>
    have hp : (ns1, nc1) = p := by
      cases hres
      rfl
    obtain ⟨dk1, dk2, dk3, dk4, dk5⟩ := de7 nc1 rfl
    subst hp
    have hns2 : st2.namespaces = putNamespaces st.namespaces ns1 := de1
    refine ⟨rfl, ?_, ?_, dk1, dk2, dk3, ?_, dk4, ?_, ?_, dk5⟩
    · show findNs st2.namespaces ns1.name = some ns1
      rw [hns2]
      exact findNs_putNamespaces_self st.namespaces ns1 hnspres
    · intro m hm
      show findNs st2.namespaces m = lookupNs st m
      rw [hns2, findNs_putNamespaces_ne st.namespaces ns1 m hm]
      rfl
    · intro x hx
      exact de2 x hx
    · intro kk hkk
      exact de4 kk hkk
    · intro kk hkk
      exact de5 kk hkk

/-- Effects of the whole annotation stage on the success path: the
persisted namespace carries the new class name in its `last-name`
annotation and is stored, the surviving class value keeps name and spec
and stays stored, ledger entries with a declared group-version-kind
survive, managed objects with a declared group-version-kind are
untouched, absent objects stay absent, and — when a class change was
detected — every resource the old class declared whose
group-version-kind the new class does not declare is gone. -/
theorem handleNamespaceAnnotations_effects (st : Store) (nsp : NsObj) (nc : NamespaceClass)
    (hsync : lookupClass st nc.name = some nc)
    (hnspres : (findNs st.namespaces nsp.name).isSome)
    (p : NsObj × NamespaceClass)
    (hres : (handleNamespaceAnnotations st nsp nc).2.2 = .ok p) :
    p.1.name = nsp.name ∧
    p.1.labels = nsp.labels ∧
    getA p.1.annotations lastNameKey = some nc.name ∧
    lookupNs (handleNamespaceAnnotations st nsp nc).2.1 nsp.name = some p.1 ∧
    p.2.name = nc.name ∧ p.2.spec = nc.spec ∧
    lookupClass (handleNamespaceAnnotations st nsp nc).2.1 nc.name = some p.2 ∧
    (∀ e ∈ nc.status.resources,
      resourceExistsInNamespaceClass e.apiVersion e.kind nc.spec.resources = true →
      e ∈ p.2.status.resources) ∧
    (∀ kk : ObjKey, resourceExistsInNamespaceClass kk.apiVersion kk.kind nc.spec.resources = true →
      (handleNamespaceAnnotations st nsp nc).2.1.getObj kk = st.getObj kk) ∧
    (∀ kk, st.getObj kk = none → (handleNamespaceAnnotations st nsp nc).2.1.getObj kk = none) ∧
    (∀ lastName, getA nsp.annotations lastNameKey = some lastName → lastName ≠ nc.name →
      ∀ o, RawManifest.ok o ∈ ((lookupClass st lastName).getD zeroClass).spec.resources →
        resourceExistsInNamespaceClass o.apiVersion o.kind nc.spec.resources = false →
        (handleNamespaceAnnotations st nsp nc).2.1.getObj
          (keyOf { o with ns := nsp.name }) = none) ∧
    (∀ e, e ∈ p.2.status.resources → e ∈ nc.status.resources) := by
  cases hanno : getA nsp.annotations lastNameKey with
  | none =>
    set ns1 := { nsp with annotations := setA nsp.annotations lastNameKey nc.name } with hns1
    have heq : handleNamespaceAnnotations st nsp nc =
        handleNamespaceAnnotationsTail st ns1 nc := by
      simp only [handleNamespaceAnnotations, hanno]
    rw [heq] at hres ⊢
    have hnp : (findNs st.namespaces ns1.name).isSome := hnspres
    obtain ⟨t1, t2, t3, t4, t5, t6, t7, t8, t9, t10, t11⟩ :=
      handleNamespaceAnnotationsTail_effects st ns1 nc hsync hnp p hres
    refine ⟨by rw [t1], by rw [t1], ?_, by rw [t1]; exact t2, t4, t5, t6, t8, t9, t10, ?_, t11⟩
    · rw [t1]
      exact getA_setA_self nsp.annotations lastNameKey nc.name
    · intro lastName hln
      exact Option.noConfusion hln
  | some lastName =>
    by_cases hlast : lastName = nc.name
    · subst hlast
      have heq : handleNamespaceAnnotations st nsp nc =
          handleNamespaceAnnotationsTail st nsp nc := by
        simp only [handleNamespaceAnnotations, hanno, if_true]
      rw [heq] at hres ⊢
      obtain ⟨t1, t2, t3, t4, t5, t6, t7, t8, t9, t10, t11⟩ :=
        handleNamespaceAnnotationsTail_effects st nsp nc hsync hnspres p hres
      refine ⟨by rw [t1], by rw [t1], ?_, by rw [t1]; exact t2, t4, t5, t6, t8, t9, t10, ?_,
        t11⟩
      · rw [t1]
        exact hanno
      · intro ln hln hlnne
        injection hln with hh2
        exact (hlnne hh2.symm).elim
    · set ns1 := { nsp with annotations := setA nsp.annotations lastNameKey nc.name } with hns1
      rcases hcc : handleNamespaceClassChange st ns1 lastName nc with ⟨cops, stc, cres⟩
      have heq : handleNamespaceAnnotations st nsp nc =
          match cres with
          | .error e => (cops, stc, .error e)
          | .ok _ => (cops ++ (handleNamespaceAnnotationsTail stc ns1 nc).1,
              (handleNamespaceAnnotationsTail stc ns1 nc).2.1,
              (handleNamespaceAnnotationsTail stc ns1 nc).2.2) := by
        simp only [handleNamespaceAnnotations, hanno]
        rw [if_neg hlast, ← hns1]
        simp only [hcc]
        cases cres <;> rfl
      obtain ⟨cc1, cc2, cc3, cc4, cc5, cc6⟩ := handleNamespaceClassChangeLoop_effects
        ns1.name nc ((lookupClass st lastName).getD zeroClass).spec.resources st
      have hccdef : handleNamespaceClassChange st ns1 lastName nc =
          handleNamespaceClassChangeLoop ns1.name nc
            ((lookupClass st lastName).getD zeroClass).spec.resources st := rfl
      rw [hccdef] at hcc
      rw [hcc] at cc1 cc2 cc3 cc4 cc5 cc6
      simp only at cc1 cc2 cc3 cc4 cc5 cc6
      cases cres with
      | error e =>
        rw [heq] at hres
        simp at hres
      | ok u =>
        rw [heq] at hres ⊢
        simp only at hres ⊢
        have hsyncc : lookupClass stc nc.name = some nc := by
          rw [lookupClass]
          rw [cc1]
          exact hsync
        have hnpc : (findNs stc.namespaces ns1.name).isSome := by
          rw [cc2]
          exact hnspres
        obtain ⟨t1, t2, t3, t4, t5, t6, t7, t8, t9, t10, t11⟩ :=
          handleNamespaceAnnotationsTail_effects stc ns1 nc hsyncc hnpc p hres
        refine ⟨by rw [t1], by rw [t1], ?_, by rw [t1]; exact t2, t4, t5, t6, t8, ?_, ?_, ?_,
          t11⟩
        · rw [t1]
          exact getA_setA_self nsp.annotations lastNameKey nc.name
        · intro kk hkk
          rw [t9 kk hkk]
          exact cc4 kk hkk
        · intro kk hkk
          exact t10 kk (cc5 kk hkk)
        · intro ln hln hlnne o ho hchk
          have hlneq : lastName = ln := by
            injection hln with hh2
          subst hlneq
          refine t10 _ ?_
          exact cc6 rfl o ho hchk



/-- Effects of a whole successful `Reconcile` pass for a namespace whose
class label resolves to a stored class. -/
theorem Reconcile_ok_effects (st : Store) (n : String) (nsp : NsObj) (L : String)
    (nc : NamespaceClass)
    (hns : lookupNs st n = some nsp)
    (hlab : getA nsp.labels classLabelKey = some L)
    (hcls : lookupClass st L = some nc)
    (hok : (Reconcile st n).2.2 = .ok ()) :
    nc.spec.resources.all isOkM = true ∧
    (∃ nc', lookupClass (Reconcile st n).2.1 nc.name = some nc' ∧
      nc'.name = nc.name ∧ nc'.spec = nc.spec ∧
      (∀ o, RawManifest.ok o ∈ nc.spec.resources →
        ((Reconcile st n).2.1.getObj (keyOf { o with ns := nsp.name })).isSome ∧
        (⟨o.kind, o.name, o.apiVersion⟩ : ResourceStatus) ∈ nc'.status.resources) ∧
      (∀ e, e ∈ nc'.status.resources → e ∈ nc.status.resources ∨
        ∃ o, RawManifest.ok o ∈ nc.spec.resources ∧
          e = (⟨o.kind, o.name, o.apiVersion⟩ : ResourceStatus))) ∧
    (∃ ns', lookupNs (Reconcile st n).2.1 nsp.name = some ns' ∧
      ns'.name = nsp.name ∧ ns'.labels = nsp.labels ∧
      getA ns'.annotations lastNameKey = some nc.name) ∧
    (∀ kk : ObjKey, resourceExistsInNamespaceClass kk.apiVersion kk.kind nc.spec.resources = true →
      (st.getObj kk).isSome → ((Reconcile st n).2.1.getObj kk).isSome) ∧
    (∀ lastName, getA nsp.annotations lastNameKey = some lastName → lastName ≠ nc.name →
      ∀ o, RawManifest.ok o ∈ ((lookupClass st lastName).getD zeroClass).spec.resources →
        resourceExistsInNamespaceClass o.apiVersion o.kind nc.spec.resources = false →
        (Reconcile st n).2.1.getObj (keyOf { o with ns := nsp.name }) = none) := by
  have hname : nc.name = L := findClass_name st.classes L nc hcls
  have hsync : lookupClass st nc.name = some nc := by rw [hname]; exact hcls
  have hnsname : nsp.name = n := findNs_name st.namespaces n nsp hns
  rcases hhr : handleResourcesLoop nsp.name nc.spec.resources st nc with ⟨rops, st1, rres⟩
  have hrec0 : Reconcile st n =
      (match handleResources st nsp nc with
       | (rops1, sta, .error e) => (rops1, sta, .error e)
       | (rops1, sta, .ok nc1) =>
         match handleNamespaceAnnotations sta nsp nc1 with
         | (aops, st2, .error e) => (rops1 ++ aops, st2, .error e)
         | (aops, st2, .ok _) => (rops1 ++ aops, st2, .ok ())) := by
    simp only [Reconcile, hns, Option.getD_some, hlab, hcls]
  have hhr2 : handleResources st nsp nc = (rops, st1, rres) := hhr
  rw [hhr2] at hrec0
  obtain ⟨fa, fb, fc, fd, fe, ff⟩ := handleResourcesLoop_frame nsp.name nc.spec.resources st nc
  rw [hhr] at fa fb fc fd fe ff
  simp only at fa fb fc fd fe ff
  cases rres with
  | error e =>
    rw [hrec0] at hok
    simp at hok
  | ok nc1 =>
    obtain ⟨ok1, ok2, ok3, ⟨ext, hext, hexte⟩, ok5, ok6⟩ :=
      handleResourcesLoop_ok nsp.name nc.spec.resources st nc nc1 hsync (by rw [hhr])
    rw [hhr] at ok3 ok5
    simp only at ok3 ok5
    have hrec1 : Reconcile st n =
        (match handleNamespaceAnnotations st1 nsp nc1 with
         | (aops, st2, .error e) => (rops ++ aops, st2, .error e)
         | (aops, st2, .ok _) => (rops ++ aops, st2, .ok ())) := hrec0
    rcases hann : handleNamespaceAnnotations st1 nsp nc1 with ⟨aops, st2, ares⟩
    rw [hann] at hrec1
    cases ares with
    | error e =>
      rw [hrec1] at hok
      simp at hok
    | ok p =>
      have hrec2 : Reconcile st n = (rops ++ aops, st2, .ok ()) := hrec1
      have hfinal : (Reconcile st n).2.1 = st2 := by rw [hrec2]
      have hsync1 : lookupClass st1 nc1.name = some nc1 := by rw [ok1]; exact ok3
      have hnspres1 : (findNs st1.namespaces nsp.name).isSome = true := by
        rw [show st1.namespaces = st.namespaces from fa, hnsname]
        rw [lookupNs] at hns
        simp [hns]
      obtain ⟨a1, a2, a3, a4, a5, a6, a7, a8, a9, a10, a11, a12⟩ :=
        handleNamespaceAnnotations_effects st1 nsp nc1 hsync1 hnspres1 p (by rw [hann])
      rw [hann] at a4 a7 a9 a10 a11
      simp only at a4 a7 a9 a10 a11
      have hspec1 : nc1.spec = nc.spec := ok2
      refine ⟨ok6, ⟨p.2, ?_, ?_, ?_, ?_, ?_⟩, ⟨p.1, ?_, a1, a2, ?_⟩, ?_, ?_⟩
      · rw [hfinal, ← ok1]
        exact a7
      · rw [a5, ok1]
      · rw [a6, hspec1]
      · intro o ho
        constructor
        · rw [hfinal]
          have hchk : resourceExistsInNamespaceClass o.apiVersion o.kind
              nc1.spec.resources = true := by
            rw [hspec1]
            exact existsInClass_of_mem o.apiVersion o.kind nc.spec.resources ok6 o ho rfl rfl
          rw [a9 (keyOf { o with ns := nsp.name }) hchk]
          exact (ok5 o ho).1
        · refine a8 ⟨o.kind, o.name, o.apiVersion⟩ (ok5 o ho).2 ?_
          rw [hspec1]
          exact existsInClass_of_mem o.apiVersion o.kind nc.spec.resources ok6 o ho rfl rfl
      · intro e he
        have h1 := a12 e he
        rw [hext] at h1
        rcases List.mem_append.mp h1 with h | h
        · exact Or.inl h
        · exact Or.inr (hexte e h)
      · rw [hfinal]
        exact a4
      · rw [a3, ok1]
      · intro kk hkk hsome
        have hchk : resourceExistsInNamespaceClass kk.apiVersion kk.kind
            nc1.spec.resources = true := by rw [hspec1]; exact hkk
        rw [hfinal, a9 kk hchk]
        exact fd kk hsome
      · intro lastName hln hlne o ho hchk
        have hlne1 : lastName ≠ nc1.name := by rw [ok1]; exact hlne
        have hlc : lookupClass st1 lastName = lookupClass st lastName := by
          refine fc lastName ?_
          intro hh
          exact hlne (hh ▸ rfl)
        have hchk1 : resourceExistsInNamespaceClass o.apiVersion o.kind
            nc1.spec.resources = false := by rw [hspec1]; exact hchk
        rw [hfinal]
        refine a11 lastName hln hlne1 o ?_ hchk1
        rw [hlc]
        exact ho


/-- On a store that a successful pass has already converged — every
declared manifest live, every triple in the ledger, annotation advanced,
no orphan entries — `Reconcile` returns the store unchanged and issues
only reads, effect-free updates and one effect-free namespace update. -/
theorem Reconcile_fixpoint (st : Store) (n : String) (nsp : NsObj) (L : String)
    (nc : NamespaceClass)
    (hns : lookupNs st n = some nsp)
    (hlab : getA nsp.labels classLabelKey = some L)
    (hcls : lookupClass st L = some nc)
    (hall : nc.spec.resources.all isOkM = true)
    (hobj : ∀ o, RawManifest.ok o ∈ nc.spec.resources →
      (st.getObj (keyOf { o with ns := nsp.name })).isSome)
    (htr : ∀ o, RawManifest.ok o ∈ nc.spec.resources →
      (⟨o.kind, o.name, o.apiVersion⟩ : ResourceStatus) ∈ nc.status.resources)
    (hanno : getA nsp.annotations lastNameKey = some nc.name)
    (hclean : ∀ e ∈ nc.status.resources,
      resourceExistsInNamespaceClass e.apiVersion e.kind nc.spec.resources = true) :
    (Reconcile st n).2.1 = st ∧ (Reconcile st n).2.2 = .ok () ∧
    (∀ op ∈ (Reconcile st n).1,
      op.isGet = true ∨ op.isUpdate = true ∨ op.isNsUpdate = true) := by
  have hnsname : nsp.name = n := findNs_name st.namespaces n nsp hns
  obtain ⟨f1, f2, f3⟩ := handleResourcesLoop_fix nsp.name nc.spec.resources st nc hall hobj htr
  rcases hhr : handleResourcesLoop nsp.name nc.spec.resources st nc with ⟨rops, st1, rres⟩
  rw [hhr] at f1 f2 f3
  simp only at f1 f2 f3
  rw [f1, f2] at hhr
  have hfind : findNs st.namespaces nsp.name = some nsp := by rw [hnsname]; exact hns
  have hput : putNsE st nsp = .ok st := by
    have h1 : (findNs st.namespaces nsp.name).isSome := by simp [hfind]
    simp only [putNsE, h1, if_true]
    rw [putNamespaces_self_eq st.namespaces nsp hfind]
  have hdel : handleResourcesDeletion st nsp nc = ([], st, .ok nc) :=
    handleResourcesDeletion_clean st nsp nc hclean
  have htail : handleNamespaceAnnotationsTail st nsp nc =
      ([Op.nsUpdate nsp], st, .ok (nsp, nc)) := by
    simp only [handleNamespaceAnnotationsTail, hput, hdel]
  have hannfull : handleNamespaceAnnotations st nsp nc =
      ([Op.nsUpdate nsp], st, .ok (nsp, nc)) := by
    have hstage : handleNamespaceAnnotations st nsp nc =
        handleNamespaceAnnotationsTail st nsp nc := by
      simp only [handleNamespaceAnnotations, hanno, if_true]
    rw [hstage, htail]
  have hrec : Reconcile st n = (rops ++ [Op.nsUpdate nsp], st, .ok ()) := by
    simp only [Reconcile, hns, Option.getD_some, hlab, hcls]
    rw [show handleResources st nsp nc =
      handleResourcesLoop nsp.name nc.spec.resources st nc from rfl, hhr]
    show ((match handleNamespaceAnnotations st nsp nc with
          | (aops, st2, Except.error e) => (rops ++ aops, st2, Except.error e)
          | (aops, st2, Except.ok _) => (rops ++ aops, st2, Except.ok ())) : Res Unit) =
        (rops ++ [Op.nsUpdate nsp], st, Except.ok ())
    rw [hannfull]
  rw [hrec]
  refine ⟨rfl, rfl, ?_⟩
  intro op hop
  rcases List.mem_append.mp hop with h | h
  · rcases f3 op h with h1 | h1
    · exact Or.inl h1
    · exact Or.inr (Or.inl h1)
  · have h2 : op = Op.nsUpdate nsp := by simpa using h
    subst h2
    exact Or.inr (Or.inr (by simp [Op.isNsUpdate]))


/-- An all-decodable manifest list converges without error when the
in-memory class agrees with the stored one. -/
theorem handleResourcesLoop_allOk_ok (nsName : String) (pre : List RawManifest) :
    ∀ (st : Store) (nc : NamespaceClass), pre.all isOkM = true →
    lookupClass st nc.name = some nc →
    ∃ nc1, (handleResourcesLoop nsName pre st nc).2.2 = .ok nc1 := by
  induction pre with
  | nil =>
    intro st nc _ _
    exact ⟨nc, rfl⟩
  | cons m rest ih =>
    intro st nc hall hsync
    simp only [List.all_cons, Bool.and_eq_true] at hall
    cases m with
    | bad => simp [isOkM] at hall
    | ok o0 =>
      cases hg : st.getObj (keyOf { o0 with ns := nsName }) with
      | none =>
        have hsync1 : lookupClass (createObj st (keyOf { o0 with ns := nsName }) o0.payload)
            nc.name = some nc := by simpa using hsync
        obtain ⟨nc1, hok, hsyncout⟩ := ledgerStep_ok
          (createObj st (keyOf { o0 with ns := nsName }) o0.payload) nc
          o0.name o0.apiVersion o0.kind hsync1
        rcases hls : ledgerStep (createObj st (keyOf { o0 with ns := nsName }) o0.payload) nc
            o0.name o0.apiVersion o0.kind with ⟨lops, st2, r⟩
        rw [hls] at hok hsyncout
        simp only at hok hsyncout
        subst hok
        have hframe := ledgerStep_frame (createObj st (keyOf { o0 with ns := nsName }) o0.payload)
          nc o0.name o0.apiVersion o0.kind
        rw [hls] at hframe
        obtain ⟨hname, _, _, _⟩ := hframe.2.2.2.2.2 nc1 rfl
        obtain ⟨nc2, h2⟩ := ih st2 nc1 hall.2 (hname ▸ hsyncout)
        refine ⟨nc2, ?_⟩
        rw [hrl_step_none nsName o0 rest st nc hg lops st2 nc1 hls]
        exact h2
      | some live =>
        have hsync1 : lookupClass (updateObj st (keyOf { o0 with ns := nsName }) live)
            nc.name = some nc := by simpa using hsync
        obtain ⟨nc1, hok, hsyncout⟩ := ledgerStep_ok
          (updateObj st (keyOf { o0 with ns := nsName }) live) nc
          o0.name o0.apiVersion o0.kind hsync1
        rcases hls : ledgerStep (updateObj st (keyOf { o0 with ns := nsName }) live) nc
            o0.name o0.apiVersion o0.kind with ⟨lops, st2, r⟩
        rw [hls] at hok hsyncout
        simp only at hok hsyncout
        subst hok
        have hframe := ledgerStep_frame (updateObj st (keyOf { o0 with ns := nsName }) live)
          nc o0.name o0.apiVersion o0.kind
        rw [hls] at hframe
        obtain ⟨hname, _, _, _⟩ := hframe.2.2.2.2.2 nc1 rfl
        obtain ⟨nc2, h2⟩ := ih st2 nc1 hall.2 (hname ▸ hsyncout)
        refine ⟨nc2, ?_⟩
        rw [hrl_step_some nsName o0 rest st nc live hg lops st2 nc1 hls]
        exact h2

/-- A manifest list with an undecodable entry is processed exactly like
its decodable prefix, and then aborts with the decode error: the
manifests after the undecodable one are never reached. -/
theorem handleResourcesLoop_append_bad (nsName : String) (pre : List RawManifest)
    (rest : List RawManifest) :
    ∀ (st : Store) (nc : NamespaceClass), pre.all isOkM = true →
    lookupClass st nc.name = some nc →
    handleResourcesLoop nsName (pre ++ RawManifest.bad :: rest) st nc =
      ((handleResourcesLoop nsName pre st nc).1,
       (handleResourcesLoop nsName pre st nc).2.1, .error .decodeError) := by
  induction pre with
  | nil =>
    intro st nc _ _
    rfl
  | cons m rest2 ih =>
    intro st nc hall hsync
    simp only [List.all_cons, Bool.and_eq_true] at hall
    cases m with
    | bad => simp [isOkM] at hall
    | ok o0 =>
      rw [List.cons_append]
      cases hg : st.getObj (keyOf { o0 with ns := nsName }) with
      | none =>
        have hsync1 : lookupClass (createObj st (keyOf { o0 with ns := nsName }) o0.payload)
            nc.name = some nc := by simpa using hsync
        obtain ⟨nc1, hok, hsyncout⟩ := ledgerStep_ok
          (createObj st (keyOf { o0 with ns := nsName }) o0.payload) nc
          o0.name o0.apiVersion o0.kind hsync1
        rcases hls : ledgerStep (createObj st (keyOf { o0 with ns := nsName }) o0.payload) nc
            o0.name o0.apiVersion o0.kind with ⟨lops, st2, r⟩
        rw [hls] at hok hsyncout
        simp only at hok hsyncout
        subst hok
        have hframe := ledgerStep_frame (createObj st (keyOf { o0 with ns := nsName }) o0.payload)
          nc o0.name o0.apiVersion o0.kind
        rw [hls] at hframe
        obtain ⟨hname, _, _, _⟩ := hframe.2.2.2.2.2 nc1 rfl
        rw [hrl_step_none nsName o0 (rest2 ++ RawManifest.bad :: rest) st nc hg lops st2 nc1 hls]
        rw [hrl_step_none nsName o0 rest2 st nc hg lops st2 nc1 hls]
        rw [ih st2 nc1 hall.2 (hname ▸ hsyncout)]
      | some live =>
        have hsync1 : lookupClass (updateObj st (keyOf { o0 with ns := nsName }) live)
            nc.name = some nc := by simpa using hsync
        obtain ⟨nc1, hok, hsyncout⟩ := ledgerStep_ok
          (updateObj st (keyOf { o0 with ns := nsName }) live) nc
          o0.name o0.apiVersion o0.kind hsync1
        rcases hls : ledgerStep (updateObj st (keyOf { o0 with ns := nsName }) live) nc
            o0.name o0.apiVersion o0.kind with ⟨lops, st2, r⟩
        rw [hls] at hok hsyncout
        simp only at hok hsyncout
        subst hok
        have hframe := ledgerStep_frame (updateObj st (keyOf { o0 with ns := nsName }) live)
          nc o0.name o0.apiVersion o0.kind
        rw [hls] at hframe
        obtain ⟨hname, _, _, _⟩ := hframe.2.2.2.2.2 nc1 rfl
        rw [hrl_step_some nsName o0 (rest2 ++ RawManifest.bad :: rest) st nc live hg lops st2
          nc1 hls]
        rw [hrl_step_some nsName o0 rest2 st nc live hg lops st2 nc1 hls]
        rw [ih st2 nc1 hall.2 (hname ▸ hsyncout)]


/-- The inner removal loop only ever issues status updates. -/
theorem sweepInnerLoop_ops (className : String) (t : ResourceStatus) (r : Nat) :
    ∀ (j : Nat) (arr : List ResourceStatus) (curLen : Nat) (st : Store),
    ∀ op ∈ (sweepInnerLoop className t r j arr curLen st).1, op.isStatusUpdate = true := by
  induction r with
  | zero =>
    intro j arr curLen st op hop
    simp [sweepInnerLoop] at hop
  | succ r ih =>
    intro j arr curLen st op hop
    by_cases hm : (arr.getD j ⟨"", "", ""⟩).name = t.name ∧
        (arr.getD j ⟨"", "", ""⟩).apiVersion = t.apiVersion ∧
        (arr.getD j ⟨"", "", ""⟩).kind = t.kind
    · by_cases hj : j < curLen
      · rcases hput : putClassStatusE st className
            ((removeShift arr j curLen).take (curLen - 1)) with st1 | st1
        · have heq : sweepInnerLoop className t (r + 1) j arr curLen st =
              ([Op.statusUpdate className ((removeShift arr j curLen).take (curLen - 1))],
               removeShift arr j curLen, curLen - 1, st, .error st1) := by
            simp only [sweepInnerLoop]
            rw [if_pos hm, if_pos hj, hput]
          rw [heq] at hop
          have h2 : op = Op.statusUpdate className
              ((removeShift arr j curLen).take (curLen - 1)) := by simpa using hop
          subst h2
          simp [Op.isStatusUpdate]
        · have heq : sweepInnerLoop className t (r + 1) j arr curLen st =
              (Op.statusUpdate className ((removeShift arr j curLen).take (curLen - 1)) ::
                (sweepInnerLoop className t r (j + 1) (removeShift arr j curLen)
                  (curLen - 1) st1).1,
               (sweepInnerLoop className t r (j + 1) (removeShift arr j curLen)
                 (curLen - 1) st1).2) := by
            simp only [sweepInnerLoop]
            rw [if_pos hm, if_pos hj, hput]
          rw [heq] at hop
          rcases List.mem_cons.mp hop with h | h
          · subst h; simp [Op.isStatusUpdate]
          · exact ih (j + 1) (removeShift arr j curLen) (curLen - 1) st1 op h
      · have heq : sweepInnerLoop className t (r + 1) j arr curLen st =
            ([], arr, curLen, st, .error .sliceBounds) := by
          simp only [sweepInnerLoop]
          rw [if_pos hm, if_neg hj]
        rw [heq] at hop
        simp at hop
    · have heq : sweepInnerLoop className t (r + 1) j arr curLen st =
          sweepInnerLoop className t r (j + 1) arr curLen st := by
        simp only [sweepInnerLoop]
        rw [if_neg hm]
      rw [heq] at hop
      exact ih (j + 1) arr curLen st op hop

/-- The outer sweep loop only ever issues deletes and status updates. -/
theorem sweepOuterLoop_ops (nsName className : String) (spec0 : List RawManifest) (r : Nat) :
    ∀ (k : Nat) (arr : List ResourceStatus) (curLen : Nat) (st : Store),
    ∀ op ∈ (sweepOuterLoop nsName className spec0 r k arr curLen st).1,
      op.isDelete = true ∨ op.isStatusUpdate = true := by
  induction r with
  | zero =>
    intro k arr curLen st op hop
    simp [sweepOuterLoop] at hop
  | succ r ih =>
    intro k arr curLen st op hop
    by_cases hchk : resourceExistsInNamespaceClass (arr.getD k ⟨"", "", ""⟩).apiVersion
        (arr.getD k ⟨"", "", ""⟩).kind spec0 = true
    · have heq : sweepOuterLoop nsName className spec0 (r + 1) k arr curLen st =
          sweepOuterLoop nsName className spec0 r (k + 1) arr curLen st := by
        simp only [sweepOuterLoop]
        rw [if_pos hchk]
      rw [heq] at hop
      exact ih (k + 1) arr curLen st op hop
    · rw [Bool.not_eq_true] at hchk
      set res := arr.getD k ⟨"", "", ""⟩ with hres0
      set key : ObjKey := ⟨res.apiVersion, res.kind, res.name, nsName⟩ with hkey
      cases hg : st.getObj key with
      | none =>
        have heq : sweepOuterLoop nsName className spec0 (r + 1) k arr curLen st =
            ([.deleteOp key], arr, curLen, st, .error .notFound) := by
          simp only [sweepOuterLoop]
          rw [if_neg (by rw [hchk]; simp), ← hres0, ← hkey, hg]
        rw [heq] at hop
        have h2 : op = Op.deleteOp key := by simpa using hop
        subst h2
        exact Or.inl (by simp [Op.isDelete])
      | some v =>
        cases hinres : (sweepInnerLoop className res curLen 0 arr curLen
            (deleteObj st key)).2.2.2.2 with
        | error e =>
          have heq : sweepOuterLoop nsName className spec0 (r + 1) k arr curLen st =
              (.deleteOp key :: (sweepInnerLoop className res curLen 0 arr curLen
                 (deleteObj st key)).1,
               (sweepInnerLoop className res curLen 0 arr curLen (deleteObj st key)).2.1,
               (sweepInnerLoop className res curLen 0 arr curLen (deleteObj st key)).2.2.1,
               (sweepInnerLoop className res curLen 0 arr curLen (deleteObj st key)).2.2.2.1,
               .error e) := by
            simp only [sweepOuterLoop]
            rw [if_neg (by rw [hchk]; simp), ← hres0, ← hkey, hg, hinres]
          rw [heq] at hop
          rcases List.mem_cons.mp hop with h | h
          · subst h; exact Or.inl (by simp [Op.isDelete])
          · exact Or.inr (sweepInnerLoop_ops className res curLen 0 arr curLen
              (deleteObj st key) op h)
        | ok u =>
          have heq : sweepOuterLoop nsName className spec0 (r + 1) k arr curLen st =
              (.deleteOp key :: (sweepInnerLoop className res curLen 0 arr curLen
                 (deleteObj st key)).1 ++
                 (sweepOuterLoop nsName className spec0 r (k + 1)
                   (sweepInnerLoop className res curLen 0 arr curLen (deleteObj st key)).2.1
                   (sweepInnerLoop className res curLen 0 arr curLen (deleteObj st key)).2.2.1
                   (sweepInnerLoop className res curLen 0 arr curLen
                     (deleteObj st key)).2.2.2.1).1,
               (sweepOuterLoop nsName className spec0 r (k + 1)
                 (sweepInnerLoop className res curLen 0 arr curLen (deleteObj st key)).2.1
                 (sweepInnerLoop className res curLen 0 arr curLen (deleteObj st key)).2.2.1
                 (sweepInnerLoop className res curLen 0 arr curLen
                   (deleteObj st key)).2.2.2.1).2) := by
            simp only [sweepOuterLoop]
            rw [if_neg (by rw [hchk]; simp), ← hres0, ← hkey, hg, hinres]
          rw [heq] at hop
          rcases List.mem_cons.mp hop with h | hop2
          · subst h; exact Or.inl (by simp [Op.isDelete])
          rcases List.mem_append.mp hop2 with h | h
          · exact Or.inr (sweepInnerLoop_ops className res curLen 0 arr curLen
              (deleteObj st key) op h)
          · exact ih (k + 1) _ _ _ op h

/-- The orphan sweep only ever issues deletes and status updates. -/
theorem handleResourcesDeletion_ops (st : Store) (nsp : NsObj) (nc : NamespaceClass) :
    ∀ op ∈ (handleResourcesDeletion st nsp nc).1,
      op.isDelete = true ∨ op.isStatusUpdate = true := by
  intro op hop
  have h1 : (handleResourcesDeletion st nsp nc).1 =
      (sweepOuterLoop nsp.name nc.name nc.spec.resources nc.status.resources.length 0
        nc.status.resources nc.status.resources.length st).1 := rfl
  rw [h1] at hop
  exact sweepOuterLoop_ops nsp.name nc.name nc.spec.resources nc.status.resources.length 0
    nc.status.resources nc.status.resources.length st op hop


/-- An operation that is a get, a delete or a status update is not a
namespace update. -/
theorem Op.notNs_of_kind (op : Op)
    (h : op.isGet = true ∨ op.isDelete = true ∨ op.isStatusUpdate = true) :
    op.isNsUpdate = false := by
  cases op <;> simp_all [Op.isGet, Op.isDelete, Op.isStatusUpdate, Op.isNsUpdate]

/-- A trace with no namespace update filters to the empty list. -/
theorem filter_nsUpdate_nil (l : List Op) (h : ∀ op ∈ l, op.isNsUpdate = false) :
    l.filter Op.isNsUpdate = [] := by
  rw [List.filter_eq_nil_iff]
  intro a ha
  simp [h a ha]

/-- The trace of the annotation-stage tail always starts with the one
namespace update, followed only by the orphan sweep's deletes and status
updates. -/
theorem handleNamespaceAnnotationsTail_trace (st : Store) (ns1 : NsObj)
    (nc : NamespaceClass) :
    ∃ dops, (handleNamespaceAnnotationsTail st ns1 nc).1 = Op.nsUpdate ns1 :: dops ∧
      ∀ op ∈ dops, op.isDelete = true ∨ op.isStatusUpdate = true := by
  cases hput : putNsE st ns1 with
  | error e =>
    have heq : (handleNamespaceAnnotationsTail st ns1 nc).1 = [Op.nsUpdate ns1] := by
      simp only [handleNamespaceAnnotationsTail, hput]
    exact ⟨[], heq, by simp⟩
  | ok st1 =>
    rcases hdel : handleResourcesDeletion st1 ns1 nc with ⟨dops, st2, dres⟩
    have hops := handleResourcesDeletion_ops st1 ns1 nc
    rw [hdel] at hops
    simp only at hops
    have heq : (handleNamespaceAnnotationsTail st ns1 nc).1 = Op.nsUpdate ns1 :: dops := by
      simp only [handleNamespaceAnnotationsTail, hput, hdel]
      cases dres <;> rfl
    exact ⟨dops, heq, hops⟩

/-! ## The claims -/

/-- Claim C1, counterexample: a namespace labeled with a class that does
not exist in the store is reconciled without error, but the pass is not
mutation-free — it issues a namespace update that writes the `last-name`
annotation (with the zero-value class name, the empty string), because
`fetchNamespaceClass` swallows the `NotFound` and the pass continues
with the zero-value class instead of ending early. -/
theorem c1_absent_class_counterexample :
    (Reconcile c1Store "n1").2.2 = .ok () ∧
    (Reconcile c1Store "n1").1 =
      [.nsUpdate ⟨"n1", [(classLabelKey, "missing")], [(lastNameKey, "")]⟩] :=
  ⟨rfl, rfl⟩

/-- Claim C1, amended: for every namespace whose class label names a
NamespaceClass absent from the store and whose `last-name` annotation is
unset, a reconciliation pass performs no create, update, delete or
status-update calls, issues exactly one namespace update (recording the
empty string as the last applied class name), and returns no error. -/
theorem c1_absent_class_amended (st : Store) (n : String) (nsp : NsObj) (L : String)
    (hns : lookupNs st n = some nsp)
    (hlab : getA nsp.labels classLabelKey = some L)
    (hcls : lookupClass st L = none)
    (hanno : getA nsp.annotations lastNameKey = none) :
    (Reconcile st n).2.2 = .ok () ∧
    (Reconcile st n).1.filter Op.isMutation =
      [Op.nsUpdate { nsp with annotations := setA nsp.annotations lastNameKey "" }] := by
  have hnsname : nsp.name = n := findNs_name st.namespaces n nsp hns
  set ns1 : NsObj := { nsp with annotations := setA nsp.annotations lastNameKey "" } with hns1
  have hfind : findNs st.namespaces ns1.name = some nsp := by
    show findNs st.namespaces nsp.name = some nsp
    rw [hnsname]
    exact hns
  have hput : putNsE st ns1 = .ok { st with namespaces := putNamespaces st.namespaces ns1 } := by
    have h1 : (findNs st.namespaces ns1.name).isSome := by simp [hfind]
    simp [putNsE, h1]
  have hdel : handleResourcesDeletion { st with namespaces := putNamespaces st.namespaces ns1 }
      ns1 zeroClass = ([], { st with namespaces := putNamespaces st.namespaces ns1 },
        .ok zeroClass) := by
    refine handleResourcesDeletion_clean _ _ _ ?_
    intro e he
    simp [zeroClass] at he
  have htail : handleNamespaceAnnotationsTail st ns1 zeroClass =
      ([Op.nsUpdate ns1], { st with namespaces := putNamespaces st.namespaces ns1 },
        .ok (ns1, zeroClass)) := by
    simp only [handleNamespaceAnnotationsTail, hput, hdel]
  have hstage : handleNamespaceAnnotations st nsp zeroClass =
      handleNamespaceAnnotationsTail st ns1 zeroClass := by
    simp only [handleNamespaceAnnotations, hanno]
    rfl
  have hrec : Reconcile st n = ([Op.nsUpdate ns1],
      { st with namespaces := putNamespaces st.namespaces ns1 }, .ok ()) := by
    simp only [Reconcile, hns, Option.getD_some, hlab, hcls, Option.getD_none]
    show ((match handleNamespaceAnnotations st nsp zeroClass with
          | (aops, st2, Except.error e) => (([] : List Op) ++ aops, st2, Except.error e)
          | (aops, st2, Except.ok _) => (([] : List Op) ++ aops, st2, Except.ok ())) :
        Res Unit) =
      ([Op.nsUpdate ns1], { st with namespaces := putNamespaces st.namespaces ns1 }, .ok ())
    rw [hstage, htail]
    rfl
  rw [hrec]
  exact ⟨rfl, rfl⟩

/-- Witness for the amended claim C1, at the concrete C1 scenario. -/
theorem c1_absent_class_amended_witness :
    (Reconcile c1Store "n1").2.2 = .ok () ∧
    (Reconcile c1Store "n1").1.filter Op.isMutation =
      [Op.nsUpdate ⟨"n1", [(classLabelKey, "missing")], [(lastNameKey, "")]⟩] :=
  c1_absent_class_amended c1Store "n1" c1ns "missing" rfl rfl rfl rfl

/-- Claim C2, counterexample: with a class whose manifest list is one
well-formed manifest followed by an undecodable one, the pass does
return the decode error, but the well-formed manifest has already been
applied — the object was created before the abort, so the pass did not
abort before any resource of the class was created. -/
theorem c2_malformed_counterexample :
    (Reconcile c2Store "n2").2.2 = .error .decodeError ∧
    (Reconcile c2Store "n2").2.1.getObj ⟨"v1", "X", "x", "n2"⟩ = some "px" :=
  ⟨rfl, rfl⟩

/-- Claim C2, amended: reconciling a namespace of a class whose
`spec.resources` holds an undecodable manifest aborts at that manifest:
the pass is exactly the convergence of the decodable prefix — so
manifests before the undecodable one are applied, nothing at or after it
is reached — and the decode error is returned to the caller rather than
swallowed. -/
theorem c2_malformed_amended (st : Store) (n : String) (nsp : NsObj) (L : String)
    (nc : NamespaceClass) (pre rest : List RawManifest)
    (hns : lookupNs st n = some nsp)
    (hlab : getA nsp.labels classLabelKey = some L)
    (hcls : lookupClass st L = some nc)
    (hspec : nc.spec.resources = pre ++ RawManifest.bad :: rest)
    (hpre : pre.all isOkM = true) :
    Reconcile st n = ((handleResourcesLoop nsp.name pre st nc).1,
      (handleResourcesLoop nsp.name pre st nc).2.1, .error .decodeError) := by
  have hname : nc.name = L := findClass_name st.classes L nc hcls
  have hsync : lookupClass st nc.name = some nc := by rw [hname]; exact hcls
  have hloop := handleResourcesLoop_append_bad nsp.name pre rest st nc hpre hsync
  simp only [Reconcile, hns, Option.getD_some, hlab, hcls]
  rw [show handleResources st nsp nc =
    handleResourcesLoop nsp.name nc.spec.resources st nc from rfl, hspec, hloop]

/-- Witness for the amended claim C2, at the concrete C2 scenario. -/
theorem c2_malformed_amended_witness :
    Reconcile c2Store "n2" = ((handleResourcesLoop "n2" [.ok c2mfX] c2Store c2Class).1,
      (handleResourcesLoop "n2" [.ok c2mfX] c2Store c2Class).2.1, .error .decodeError) :=
  c2_malformed_amended c2Store "n2" c2ns "c2" c2Class [.ok c2mfX] [] rfl rfl rfl rfl
    (by decide)

/-- Claim C5: the orphan sweep misbehaves with several orphan entries.
`handleResourcesDeletion` ranges over `Status.Resources` while the loop
body shifts the same backing array in place, so after the first removal
the outer loop reads shifted cells: with ledger `[A/a, B/b, CM/k]` and
spec declaring only `CM`, the pass ends without error, yet the orphan
`B/b` is still live in the namespace and still recorded in the ledger —
the code contradicts its own intent of deleting every undeclared entry
(and with ledger order `[A/a, CM/k, B/b]` it instead fails with a
spurious NotFound from a double delete). -/
theorem c5_orphan_sweep_bug :
    (Reconcile c5Store "n5").2.2 = .ok () ∧
    (Reconcile c5Store "n5").2.1.getObj ⟨"v1", "B", "b", "n5"⟩ = some "pb" ∧
    ((lookupClass (Reconcile c5Store "n5").2.1 "c5").map fun c => c.status.resources) =
      some [⟨"B", "b", "v1"⟩, ⟨"CM", "k", "v1"⟩] :=
  ⟨rfl, rfl, rfl⟩

/-- The filter loop of the mapper is exactly a filter over the namespace
list followed by taking names. -/
theorem mapLoop_eq_filterMap (className : String) (items : List NsObj) :
    mapLoop className items =
      ((items.filter fun x => (getA x.labels classLabelKey).getD "" == className).map
        fun x => x.name) := by
  induction items with
  | nil => rfl
  | cons x rest ih =>
    by_cases h : (getA x.labels classLabelKey).getD "" = className
    · rw [mapLoop, if_pos h, List.filter_cons_of_pos (by simp [h]), List.map_cons, ih]
    · rw [mapLoop, if_neg h, List.filter_cons_of_neg (by simp [h]), ih]

/-- Claim C6: the watch-to-request mapper is a pure function of the
changed class and the listed namespaces; it emits exactly one request —
carrying the namespace name — per namespace whose class label equals the
class's name (Go's zero value `""` standing for a missing label), zero
requests when nothing matches, and an empty result, not an error, when
the namespace list could not be fetched. -/
theorem c6_watch_fanout (nc : NamespaceClass) (listResult : Except Err (List NsObj)) :
    (∀ e, listResult = .error e → mapNamespaceClassToNamespaces nc listResult = []) ∧
    (∀ items, listResult = .ok items →
      mapNamespaceClassToNamespaces nc listResult =
        ((items.filter fun x => (getA x.labels classLabelKey).getD "" == nc.name).map
          fun x => x.name)) ∧
    (∀ items, listResult = .ok items →
      (∀ x ∈ items, ¬((getA x.labels classLabelKey).getD "" = nc.name)) →
      mapNamespaceClassToNamespaces nc listResult = []) := by
  refine ⟨?_, ?_, ?_⟩
  · intro e he
    subst he
    rfl
  · intro items he
    subst he
    exact mapLoop_eq_filterMap nc.name items
  · intro items he hnone
    subst he
    show mapLoop nc.name items = []
    rw [mapLoop_eq_filterMap]
    have hf : items.filter (fun x => (getA x.labels classLabelKey).getD "" == nc.name) = [] := by
      rw [List.filter_eq_nil_iff]
      intro x hx
      simp [hnone x hx]
    rw [hf]
    rfl

/-- Witness for claim C6, at the concrete three-namespace scenario. -/
theorem c6_watch_fanout_witness :
    mapNamespaceClassToNamespaces c6Class (.ok c6nsList) = ["w1", "w3"] ∧
    mapNamespaceClassToNamespaces c6Class (.error .notFound) = [] := by
  have h := c6_watch_fanout c6Class (.ok c6nsList)
  have h2 := c6_watch_fanout c6Class (.error .notFound)
  refine ⟨?_, h2.1 .notFound rfl⟩
  rw [h.2.1 c6nsList rfl]
  decide

/-- Claim C9, counterexample: the claim predicts that one undecodable
manifest makes the membership check return false for every queried
object, but a query matched by a well-formed manifest placed before the
undecodable one still returns true — the scan only gives up when it
reaches the undecodable manifest. -/
theorem c9_membership_counterexample :
    resourceExistsInNamespaceClass "v1" "X"
      [RawManifest.ok ⟨"v1", "X", "x", "", "p"⟩, RawManifest.bad] = true := by
  decide

/-- Claim C9, amended: when a manifest fails to decode, the membership
check silently behaves as if the list ended there — it equals the check
over the decodable prefix, the decode error being swallowed into a
plain `false` — so objects whose group-version-kind is declared only at
or after the undecodable manifest are treated as undeclared; the orphan
sweep may therefore delete them, as it does here to the live `Y` object
that the class still declares after its undecodable first manifest. -/
theorem c9_swallowed_decode_amended (av kd : String) (pre rest : List RawManifest)
    (hpre : pre.all isOkM = true) :
    resourceExistsInNamespaceClass av kd (pre ++ RawManifest.bad :: rest) =
      resourceExistsInNamespaceClass av kd pre ∧
    (handleResourcesDeletion c9Store c9ns c9Class).2.1.getObj ⟨"v1", "Y", "y", "n9"⟩ = none ∧
    (handleResourcesDeletion c9Store c9ns c9Class).2.2 =
      .ok ⟨"c9", ⟨[.bad, .ok c9mfY]⟩, ⟨[]⟩⟩ :=
  ⟨existsInClass_of_allOk_prefixed av kd pre rest hpre, rfl, rfl⟩

/-- Witness for the amended claim C9. -/
theorem c9_swallowed_decode_amended_witness :
    resourceExistsInNamespaceClass "v1" "Y"
        ([RawManifest.ok c9mfY] ++ RawManifest.bad :: []) =
      resourceExistsInNamespaceClass "v1" "Y" [RawManifest.ok c9mfY] ∧
    (handleResourcesDeletion c9Store c9ns c9Class).2.1.getObj ⟨"v1", "Y", "y", "n9"⟩ = none ∧
    (handleResourcesDeletion c9Store c9ns c9Class).2.2 =
      .ok ⟨"c9", ⟨[.bad, .ok c9mfY]⟩, ⟨[]⟩⟩ :=
  c9_swallowed_decode_amended "v1" "Y" [RawManifest.ok c9mfY] [] (by decide)

/-- Claim C10: the convergence stage never deletes a managed object and
never touches a namespace: on every input `handleResources` issues only
get, create, update and status-update calls, every object present
before is still present after, every object whose address no declared
manifest names keeps its exact content, the namespace collection is
unchanged, every class keeps its name and spec, and classes other than
the in-memory one are untouched. -/
theorem c10_convergence_frame (st : Store) (nsp : NsObj) (nc : NamespaceClass) :
    (∀ op ∈ (handleResources st nsp nc).1,
      op.isGet = true ∨ op.isCreate = true ∨ op.isUpdate = true ∨ op.isStatusUpdate = true) ∧
    (handleResources st nsp nc).2.1.namespaces = st.namespaces ∧
    (∀ k, (st.getObj k).isSome → ((handleResources st nsp nc).2.1.getObj k).isSome) ∧
    (∀ k, (∀ o, RawManifest.ok o ∈ nc.spec.resources → keyOf { o with ns := nsp.name } ≠ k) →
      (handleResources st nsp nc).2.1.getObj k = st.getObj k) ∧
    (∀ x, ((lookupClass (handleResources st nsp nc).2.1 x).map fun c => (c.name, c.spec)) =
      ((lookupClass st x).map fun c => (c.name, c.spec))) ∧
    (∀ x, x ≠ nc.name → lookupClass (handleResources st nsp nc).2.1 x = lookupClass st x) := by
  obtain ⟨f1, f2, f3, f4, f5, f6⟩ := handleResourcesLoop_frame nsp.name nc.spec.resources st nc
  exact ⟨f6, f1, f4, f5, f2, f3⟩

/-- Witness for claim C10: at a concrete input the namespace collection
is unchanged and a pre-existing object at an address no declared
manifest names keeps its exact content. -/
theorem c10_convergence_frame_witness :
    (handleResources c10Store c10ns c10Class).2.1.namespaces = c10Store.namespaces ∧
    ((handleResources c10Store c10ns c10Class).2.1.getObj c10Key).isSome ∧
    (handleResources c10Store c10ns c10Class).2.1.getObj c10Key = some "old" := by
  have h := c10_convergence_frame c10Store c10ns c10Class
  have hk : ∀ o, RawManifest.ok o ∈ c10Class.spec.resources →
      keyOf { o with ns := c10ns.name } ≠ c10Key := by
    intro o ho
    have h1 : RawManifest.ok o = RawManifest.ok c10mf := by
      simpa [c10Class] using ho
    injection h1 with h2
    subst h2
    decide
  refine ⟨h.2.1, h.2.2.1 c10Key (by decide), ?_⟩
  rw [h.2.2.2.1 c10Key hk]
  decide


/-- Claim C3, counterexample: with class `c3` declaring one ConfigMap
manifest `b` carrying payload "desired" while a drifted live object and
a same-group-version-kind ledger entry for another name exist, a pass
succeeds, yet the live object keeps its drifted content — `r.Get`
overwrites the decoded manifest with the live state, so the Update
writes the fetched content back instead of replacing it — and the ledger
ends with two entries for the one declared `{apiVersion, kind}` pair,
against the claim's "wholly replaced" and "one entry per declared
{apiVersion, kind}". -/
theorem c3_converged_counterexample :
    (Reconcile c3Store "n3").2.2 = .ok () ∧
    (Reconcile c3Store "n3").2.1.getObj ⟨"v1", "CM", "b", "n3"⟩ = some "drifted" ∧
    ((lookupClass (Reconcile c3Store "n3").2.1 "c3").map fun c => c.status.resources) =
      some [⟨"CM", "a", "v1"⟩, ⟨"CM", "b", "v1"⟩] :=
  ⟨rfl, rfl, rfl⟩

/-- Claim C3, amended: after a successful reconciliation pass for a
namespace labeled with a stored class, the class survives with its name
and spec, and every manifest declared in `spec.resources` has a live
object at its address in the namespace (created if absent, left with its
live content if present) and a matching `{kind, name, apiVersion}` entry
in the surviving ledger — at least one entry per declared manifest, not
exactly one per declared `{apiVersion, kind}`. -/
theorem c3_converged_amended (st : Store) (n : String) (nsp : NsObj) (L : String)
    (nc : NamespaceClass)
    (hns : lookupNs st n = some nsp)
    (hlab : getA nsp.labels classLabelKey = some L)
    (hcls : lookupClass st L = some nc)
    (hok : (Reconcile st n).2.2 = .ok ()) :
    ∃ nc', lookupClass (Reconcile st n).2.1 nc.name = some nc' ∧
      nc'.name = nc.name ∧ nc'.spec = nc.spec ∧
      ∀ o, RawManifest.ok o ∈ nc.spec.resources →
        ((Reconcile st n).2.1.getObj (keyOf { o with ns := nsp.name })).isSome ∧
        (⟨o.kind, o.name, o.apiVersion⟩ : ResourceStatus) ∈ nc'.status.resources := by
  obtain ⟨hall, ⟨nc', h1, h2, h3, h4, h5⟩, hns', hpres, hdel⟩ :=
    Reconcile_ok_effects st n nsp L nc hns hlab hcls hok
  exact ⟨nc', h1, h2, h3, h4⟩

/-- Witness for the amended claim C3, at the concrete C3 scenario. -/
theorem c3_converged_amended_witness :
    ∃ nc', lookupClass (Reconcile c3Store "n3").2.1 c3Class.name = some nc' ∧
      nc'.name = c3Class.name ∧ nc'.spec = c3Class.spec ∧
      ∀ o, RawManifest.ok o ∈ c3Class.spec.resources →
        ((Reconcile c3Store "n3").2.1.getObj (keyOf { o with ns := c3ns.name })).isSome ∧
        (⟨o.kind, o.name, o.apiVersion⟩ : ResourceStatus) ∈ nc'.status.resources :=
  c3_converged_amended c3Store "n3" c3ns "c3" c3Class rfl rfl rfl rfl

/-- Claim C4: for a namespace previously bound to class A and now
labeled with class B, after a successful pass every A-declared manifest
whose group-version-kind B does not declare is gone from the namespace,
live objects exist for B's declared manifests (in particular the shared
one and the new one), and the persisted namespace's `last-name`
annotation reads B's name. -/
theorem c4_class_change_teardown (st : Store) (n : String) (nsp : NsObj)
    (A B : NamespaceClass) (oX oY oZ : UObj)
    (hns : lookupNs st n = some nsp)
    (hlab : getA nsp.labels classLabelKey = some B.name)
    (hB : lookupClass st B.name = some B)
    (hA : lookupClass st A.name = some A)
    (hanno : getA nsp.annotations lastNameKey = some A.name)
    (hAB : A.name ≠ B.name)
    (hX : RawManifest.ok oX ∈ A.spec.resources)
    (hY : RawManifest.ok oY ∈ B.spec.resources)
    (hZ : RawManifest.ok oZ ∈ B.spec.resources)
    (hXgone : resourceExistsInNamespaceClass oX.apiVersion oX.kind B.spec.resources = false)
    (hok : (Reconcile st n).2.2 = .ok ()) :
    (Reconcile st n).2.1.getObj (keyOf { oX with ns := nsp.name }) = none ∧
    ((Reconcile st n).2.1.getObj (keyOf { oY with ns := nsp.name })).isSome ∧
    ((Reconcile st n).2.1.getObj (keyOf { oZ with ns := nsp.name })).isSome ∧
    ∃ ns', lookupNs (Reconcile st n).2.1 nsp.name = some ns' ∧
      getA ns'.annotations lastNameKey = some B.name := by
  obtain ⟨hall, ⟨nc', h1, h2, h3, h4, h5⟩, ⟨ns', hn1, hn2, hn3, hn4⟩, hpres, hdel⟩ :=
    Reconcile_ok_effects st n nsp B.name B hns hlab hB hok
  have hmem : RawManifest.ok oX ∈ ((lookupClass st A.name).getD zeroClass).spec.resources := by
    rw [hA]
    exact hX
  exact ⟨hdel A.name hanno hAB oX hmem hXgone, (h4 oY hY).1, (h4 oZ hZ).1, ns', hn1, hn4⟩

/-- Witness for claim C4, at the concrete scenario: old class `a4`
declares X and Y, new class `b4` declares Y and Z, X's live object is
torn down, Y and Z are live, and the annotation reads `b4`. -/
theorem c4_class_change_teardown_witness :
    (Reconcile c4Store "n4").2.1.getObj (keyOf { c4mfX with ns := c4ns.name }) = none ∧
    ((Reconcile c4Store "n4").2.1.getObj (keyOf { c4mfY with ns := c4ns.name })).isSome ∧
    ((Reconcile c4Store "n4").2.1.getObj (keyOf { c4mfZ with ns := c4ns.name })).isSome ∧
    ∃ ns', lookupNs (Reconcile c4Store "n4").2.1 c4ns.name = some ns' ∧
      getA ns'.annotations lastNameKey = some c4B.name :=
  c4_class_change_teardown c4Store "n4" c4ns c4A c4B c4mfX c4mfY c4mfZ rfl rfl rfl rfl rfl
    (by decide) (by decide) (by decide) (by decide) (by decide) rfl

/-- Claim C7, counterexample: the pass on `c7Store` reaches the
annotation stage (the convergence stage over the empty spec succeeds),
a class change from `a7` to `c7` is detected, and the class-change sweep
fails on `a7`'s undecodable manifest — so the stage ends with the decode
error, zero namespace persists are issued (not exactly one), and the
stored namespace still carries the stale `last-name` value `a7`. -/
theorem c7_persist_counterexample :
    (Reconcile c7Store "n7").2.2 = .error .decodeError ∧
    (Reconcile c7Store "n7").1.filter Op.isNsUpdate = [] ∧
    lookupNs (Reconcile c7Store "n7").2.1 "n7" = some c7ns :=
  ⟨rfl, rfl, rfl⟩

/-- Claim C7, amended: in the annotation stage, every namespace persist
carries the advanced in-memory annotation, at most one persist is ever
issued, and exactly one is issued — before the orphan sweep's deletes
and status updates — whenever no class change is detected, including
first-time initialisation; when a class change is detected, either the
class-change sweep fails and no persist is issued at all, or the trace
is the class-change sweep's reads and deletes run to completion, then
the single persist, then the orphan sweep. -/
theorem c7_persist_ordering_amended (st : Store) (nsp : NsObj) (nc : NamespaceClass) :
    (∀ ns2, Op.nsUpdate ns2 ∈ (handleNamespaceAnnotations st nsp nc).1 →
      getA ns2.annotations lastNameKey = some nc.name) ∧
    ((handleNamespaceAnnotations st nsp nc).1.filter Op.isNsUpdate).length ≤ 1 ∧
    ((getA nsp.annotations lastNameKey = none ∨
      getA nsp.annotations lastNameKey = some nc.name) →
      ∃ ns1 dops, (handleNamespaceAnnotations st nsp nc).1 = Op.nsUpdate ns1 :: dops ∧
        getA ns1.annotations lastNameKey = some nc.name ∧
        ∀ op ∈ dops, op.isDelete = true ∨ op.isStatusUpdate = true) ∧
    (∀ lastName, getA nsp.annotations lastNameKey = some lastName → lastName ≠ nc.name →
      ((handleNamespaceAnnotations st nsp nc).1.filter Op.isNsUpdate = [] ∧
        ∃ e, (handleNamespaceAnnotations st nsp nc).2.2 = .error e) ∨
      ∃ cops ns1 dops, (handleNamespaceAnnotations st nsp nc).1 =
          cops ++ Op.nsUpdate ns1 :: dops ∧
        (∀ op ∈ cops, op.isGet = true ∨ op.isDelete = true) ∧
        getA ns1.annotations lastNameKey = some nc.name ∧
        ∀ op ∈ dops, op.isDelete = true ∨ op.isStatusUpdate = true) := by
  have master :
      (∃ ns1 dops, (handleNamespaceAnnotations st nsp nc).1 = Op.nsUpdate ns1 :: dops ∧
        getA ns1.annotations lastNameKey = some nc.name ∧
        (∀ op ∈ dops, op.isDelete = true ∨ op.isStatusUpdate = true) ∧
        (getA nsp.annotations lastNameKey = none ∨
         getA nsp.annotations lastNameKey = some nc.name)) ∨
      (∃ lastName, getA nsp.annotations lastNameKey = some lastName ∧ lastName ≠ nc.name ∧
        (((handleNamespaceAnnotations st nsp nc).1.filter Op.isNsUpdate = [] ∧
           ∃ e, (handleNamespaceAnnotations st nsp nc).2.2 = .error e) ∨
         ∃ cops ns1 dops, (handleNamespaceAnnotations st nsp nc).1 =
             cops ++ Op.nsUpdate ns1 :: dops ∧
           (∀ op ∈ cops, op.isGet = true ∨ op.isDelete = true) ∧
           getA ns1.annotations lastNameKey = some nc.name ∧
           ∀ op ∈ dops, op.isDelete = true ∨ op.isStatusUpdate = true)) := by
    cases hanno : getA nsp.annotations lastNameKey with
    | none =>
      set ns1 := { nsp with annotations := setA nsp.annotations lastNameKey nc.name } with hns1
      have heq : handleNamespaceAnnotations st nsp nc =
          handleNamespaceAnnotationsTail st ns1 nc := by
        simp only [handleNamespaceAnnotations, hanno]
      obtain ⟨dops, ht1, ht2⟩ := handleNamespaceAnnotationsTail_trace st ns1 nc
      refine Or.inl ⟨ns1, dops, ?_, ?_, ht2, Or.inl rfl⟩
      · rw [heq]
        exact ht1
      · exact getA_setA_self nsp.annotations lastNameKey nc.name
    | some lastName =>
      by_cases hlast : lastName = nc.name
      · subst hlast
        have heq : handleNamespaceAnnotations st nsp nc =
            handleNamespaceAnnotationsTail st nsp nc := by
          simp only [handleNamespaceAnnotations, hanno, if_true]
        obtain ⟨dops, ht1, ht2⟩ := handleNamespaceAnnotationsTail_trace st nsp nc
        refine Or.inl ⟨nsp, dops, ?_, hanno, ht2, Or.inr rfl⟩
        rw [heq]
        exact ht1
      · set ns1 := { nsp with annotations := setA nsp.annotations lastNameKey nc.name } with hns1
        rcases hcc : handleNamespaceClassChange st ns1 lastName nc with ⟨cops, stc, cres⟩
        have hcops : ∀ op ∈ cops, op.isGet = true ∨ op.isDelete = true := by
          obtain ⟨cc1, cc2, cc3, cc4, cc5, cc6⟩ := handleNamespaceClassChangeLoop_effects
            ns1.name nc ((lookupClass st lastName).getD zeroClass).spec.resources st
          have hccdef : handleNamespaceClassChange st ns1 lastName nc =
              handleNamespaceClassChangeLoop ns1.name nc
                ((lookupClass st lastName).getD zeroClass).spec.resources st := rfl
          rw [hccdef] at hcc
          rw [hcc] at cc3
          exact cc3
        cases cres with
        | error e =>
          have heq : handleNamespaceAnnotations st nsp nc = (cops, stc, .error e) := by
            simp only [handleNamespaceAnnotations, hanno]
            rw [if_neg hlast, ← hns1]
            simp only [hcc]
          refine Or.inr ⟨lastName, rfl, hlast, Or.inl ⟨?_, e, by rw [heq]⟩⟩
          rw [heq]
          refine filter_nsUpdate_nil cops ?_
          intro op hop
          exact Op.notNs_of_kind op (by rcases hcops op hop with h | h <;> simp [h])
        | ok u =>
          have heq : handleNamespaceAnnotations st nsp nc =
              (cops ++ (handleNamespaceAnnotationsTail stc ns1 nc).1,
               (handleNamespaceAnnotationsTail stc ns1 nc).2.1,
               (handleNamespaceAnnotationsTail stc ns1 nc).2.2) := by
            simp only [handleNamespaceAnnotations, hanno]
            rw [if_neg hlast, ← hns1]
            simp only [hcc]
          obtain ⟨dops, ht1, ht2⟩ := handleNamespaceAnnotationsTail_trace stc ns1 nc
          refine Or.inr ⟨lastName, rfl, hlast, Or.inr
            ⟨cops, ns1, dops, ?_, hcops, ?_, ht2⟩⟩
          · rw [heq]
            simp only
            rw [ht1]
          · exact getA_setA_self nsp.annotations lastNameKey nc.name
  refine ⟨?_, ?_, ?_, ?_⟩
  · intro ns2 hmem
    rcases master with ⟨ns1, dops, h1, h2, h3, h4⟩ | ⟨lastName, hln, hlne, inner⟩
    · rw [h1] at hmem
      rcases List.mem_cons.mp hmem with h | h
      · injection h with hh
        rw [hh]
        exact h2
      · rcases h3 _ h with hk | hk <;> simp [Op.isDelete, Op.isStatusUpdate] at hk
    · rcases inner with ⟨hfil, e, he⟩ | ⟨cops, ns1, dops, h1, hc, h2, h3⟩
      · have h0 := (List.filter_eq_nil_iff.mp hfil) _ hmem
        simp [Op.isNsUpdate] at h0
      · rw [h1] at hmem
        rcases List.mem_append.mp hmem with h | h
        · rcases hc _ h with hk | hk <;> simp [Op.isGet, Op.isDelete] at hk
        · rcases List.mem_cons.mp h with h | h
          · injection h with hh
            rw [hh]
            exact h2
          · rcases h3 _ h with hk | hk <;> simp [Op.isDelete, Op.isStatusUpdate] at hk
  · rcases master with ⟨ns1, dops, h1, h2, h3, h4⟩ | ⟨lastName, hln, hlne, inner⟩
    · rw [h1, List.filter_cons_of_pos (by simp [Op.isNsUpdate]),
        filter_nsUpdate_nil dops (fun op hop => Op.notNs_of_kind op (Or.inr (h3 op hop)))]
      simp
    · rcases inner with ⟨hfil, e, he⟩ | ⟨cops, ns1, dops, h1, hc, h2, h3⟩
      · rw [hfil]
        simp
      · rw [h1, List.filter_append,
          filter_nsUpdate_nil cops (fun op hop => Op.notNs_of_kind op
            (by rcases hc op hop with h | h <;> simp [h])),
          List.filter_cons_of_pos (by simp [Op.isNsUpdate]),
          filter_nsUpdate_nil dops (fun op hop => Op.notNs_of_kind op (Or.inr (h3 op hop)))]
        simp
  · intro hcase
    rcases master with ⟨ns1, dops, h1, h2, h3, h4⟩ | ⟨lastName, hln, hlne, inner⟩
    · exact ⟨ns1, dops, h1, h2, h3⟩
    · rcases hcase with h | h
      · rw [hln] at h
        exact Option.noConfusion h
      · rw [hln] at h
        injection h with hh
        exact (hlne hh).elim
  · intro lastName hln hlne
    rcases master with ⟨ns1, dops, h1, h2, h3, h4⟩ | ⟨lastName2, hln2, hlne2, inner⟩
    · rcases h4 with h | h
      · rw [hln] at h
        exact Option.noConfusion h
      · rw [hln] at h
        injection h with hh
        exact (hlne hh).elim
    · exact inner

/-- Claim C8, counterexample: reconciling the same pair a second time
with no intervening change is not idempotent on `c8Store`: the first
pass succeeds but leaves an orphan ledger entry behind (the in-place
ledger mutation shifts the array under the loop), so the second pass
issues a delete and changes the store. -/
theorem c8_idempotence_counterexample :
    (Reconcile c8Store "n8").2.2 = .ok () ∧
    (Reconcile (Reconcile c8Store "n8").2.1 "n8").2.2 = .ok () ∧
    (Reconcile (Reconcile c8Store "n8").2.1 "n8").1.filter Op.isDelete ≠ [] ∧
    (Reconcile (Reconcile c8Store "n8").2.1 "n8").2.1 ≠ (Reconcile c8Store "n8").2.1 :=
  ⟨by decide, by decide, by decide, by decide⟩

/-- Claim C8, amended: when the class's ledger starts with no orphan
entry (every recorded `{apiVersion, kind}` still declared by the spec),
a successful pass reaches a fixpoint: the second pass returns the store
of the first unchanged, succeeds, and issues only gets, effect-free
updates and the one effect-free namespace update — no create, delete or
status update. -/
theorem c8_idempotence_amended (st : Store) (n : String) (nsp : NsObj) (L : String)
    (nc : NamespaceClass)
    (hns : lookupNs st n = some nsp)
    (hlab : getA nsp.labels classLabelKey = some L)
    (hcls : lookupClass st L = some nc)
    (hclean : ∀ e ∈ nc.status.resources,
      resourceExistsInNamespaceClass e.apiVersion e.kind nc.spec.resources = true)
    (hok : (Reconcile st n).2.2 = .ok ()) :
    (Reconcile (Reconcile st n).2.1 n).2.1 = (Reconcile st n).2.1 ∧
    (Reconcile (Reconcile st n).2.1 n).2.2 = .ok () ∧
    ∀ op ∈ (Reconcile (Reconcile st n).2.1 n).1,
      op.isGet = true ∨ op.isUpdate = true ∨ op.isNsUpdate = true := by
  have hLname : nc.name = L := findClass_name st.classes L nc hcls
  have hnsname : nsp.name = n := findNs_name st.namespaces n nsp hns
  obtain ⟨hall, ⟨nc', h1, h2, h3, h4, h5⟩, ⟨ns', hn1, hn2, hn3, hn4⟩, hpres, hdel⟩ :=
    Reconcile_ok_effects st n nsp L nc hns hlab hcls hok
  have hns' : lookupNs (Reconcile st n).2.1 n = some ns' := by
    rw [hnsname] at hn1
    exact hn1
  have hlab' : getA ns'.labels classLabelKey = some L := by
    rw [hn3]
    exact hlab
  have hcls' : lookupClass (Reconcile st n).2.1 L = some nc' := by
    rw [← hLname]
    exact h1
  have hall' : nc'.spec.resources.all isOkM = true := by
    rw [h3]
    exact hall
  have hobj' : ∀ o, RawManifest.ok o ∈ nc'.spec.resources →
      (((Reconcile st n).2.1.getObj (keyOf { o with ns := ns'.name }))).isSome := by
    intro o ho
    rw [h3] at ho
    rw [hn2]
    exact (h4 o ho).1
  have htr' : ∀ o, RawManifest.ok o ∈ nc'.spec.resources →
      (⟨o.kind, o.name, o.apiVersion⟩ : ResourceStatus) ∈ nc'.status.resources := by
    intro o ho
    rw [h3] at ho
    exact (h4 o ho).2
  have hanno' : getA ns'.annotations lastNameKey = some nc'.name := by
    rw [h2]
    exact hn4
  have hclean' : ∀ e ∈ nc'.status.resources,
      resourceExistsInNamespaceClass e.apiVersion e.kind nc'.spec.resources = true := by
    intro e he
    rw [h3]
    rcases h5 e he with h | ⟨o, ho, rfl⟩
    · exact hclean e h
    · exact existsInClass_of_mem o.apiVersion o.kind nc.spec.resources hall o ho rfl rfl
  exact Reconcile_fixpoint (Reconcile st n).2.1 n ns' L nc'
    hns' hlab' hcls' hall' hobj' htr' hanno' hclean'

/-- Witness for the amended claim C8, at the clean-ledger scenario. -/
theorem c8_idempotence_amended_witness :
    (Reconcile (Reconcile c8wStore "n8w").2.1 "n8w").2.1 = (Reconcile c8wStore "n8w").2.1 ∧
    (Reconcile (Reconcile c8wStore "n8w").2.1 "n8w").2.2 = .ok () ∧
    ∀ op ∈ (Reconcile (Reconcile c8wStore "n8w").2.1 "n8w").1,
      op.isGet = true ∨ op.isUpdate = true ∨ op.isNsUpdate = true :=
  c8_idempotence_amended c8wStore "n8w" c8wns "c8w" c8wClass rfl rfl rfl (by decide)
    (by decide)

end Nsc
